import Mathlib

/-!
# Earth-file serializer (`EarthFileSerializer2.cpp`): path rewriting, deserialize, serialize

A shallow embedding of `src/osgEarthDrivers/earth/EarthFileSerializer2.cpp`.

* `Config` is the document tree the serializer works on.  Its class is not part of the
  source file, so the tree and its operations are modelled from the specification
  (section 4.1); every such definition says so in its doc comment.
* The OpenSceneGraph file utilities (`osgDB::fileExists`, `osgDB::getPathRelative`, ...) and
  the URI resolver are external collaborators; they are fields of `FileSystem`, so every
  theorem holds for all of their possible behaviours unless a hypothesis says otherwise.
* `RewritePaths`, `deserialize` and `serialize` are transcribed from the source file.
-/

namespace EarthFile

/-! ## Document tree -/

/-- Modelled from the spec: the `Config` class (the Document Node of section 3) is not in the
source file.  A node has a key, a scalar value (empty when absent), a referrer (empty when
not set) and an ordered list of children.  Named attribute values are simple children, which is
how the source file reads and writes them (`conf.value("name")`, `mapConf.set("version", "2")`). -/
inductive Config where
  | mk (key : String) (value : String) (referrer : String) (children : List Config)

namespace Config

/-- Modelled from the spec: `Config::key()`. -/
def key : Config → String
  | mk k _ _ _ => k

/-- Modelled from the spec: `Config::value()`, the node's own scalar value. -/
def value : Config → String
  | mk _ v _ _ => v

/-- Modelled from the spec: `Config::referrer()`. -/
def referrer : Config → String
  | mk _ _ r _ => r

/-- Modelled from the spec: `Config::children()`, all children in insertion order. -/
def children : Config → List Config
  | mk _ _ _ cs => cs

/-- Modelled from the spec: the default-constructed `Config`, which doubles as the
"empty/absent sentinel" returned by `child(key)` when no child matches. -/
def emptyConfig : Config := mk "" "" "" []

/-- Modelled from the spec: `Config(key)`, a fresh node with a key only. -/
def ofKey (k : String) : Config := mk k "" "" []

/-- Modelled from the spec: `Config(key, value)`, a fresh simple node. -/
def ofKeyValue (k v : String) : Config := mk k v "" []

/-- Modelled from the spec: `Config::empty()`, true of the absent sentinel: no key, no value
and no children. -/
def empty (c : Config) : Bool :=
  decide (c.key = "") && decide (c.value = "") && c.children.isEmpty

/-- Modelled from the spec: `Config::isSimple()`. Section 3: a node is "simple" when it has no
children and "composite" when it has children. -/
def isSimple (c : Config) : Bool := c.children.isEmpty

/-- Modelled from the spec: `input.value() = v`, assignment to the node's own value. -/
def setValue (c : Config) (v : String) : Config := mk c.key v c.referrer c.children

/-- Modelled from the spec: `Config::setReferrer`, assignment to the node's referrer
("mutation of value/referrer must be independently settable"). -/
def setReferrer (c : Config) (r : String) : Config := mk c.key c.value r c.children

/-- Modelled from the spec: `c.key() = k`, assignment to the node's key. -/
def setKey (c : Config) (k : String) : Config := mk k c.value c.referrer c.children

/-- Modelled from the spec: replaces the child list, keeping key, value and referrer. -/
def setChildren (c : Config) (cs : List Config) : Config := mk c.key c.value c.referrer cs

/-- Modelled from the spec: `children(key)`, the ordered list of all children named `k`. -/
def childrenOf (c : Config) (k : String) : List Config :=
  c.children.filter (fun ch => decide (ch.key = k))

/-- Modelled from the spec: `child(key)`, the first child named `k`, or the empty sentinel. -/
def child (c : Config) (k : String) : Config :=
  match c.children.find? (fun ch => decide (ch.key = k)) with
  | some ch => ch
  | none => emptyConfig

/-- Modelled from the spec: `value(key)`, the value of the first child named `k`, empty when
there is none. -/
def valueOf (c : Config) (k : String) : String := (c.child k).value

/-- Modelled from the spec: `hasValue(key)`, whether `value(key)` is a non-empty string. -/
def hasValue (c : Config) (k : String) : Bool := decide (c.valueOf k ≠ "")

/-- Modelled from the spec: `add(node)`, append a child, preserving order, duplicates allowed. -/
def add (c : Config) (ch : Config) : Config := c.setChildren (c.children ++ [ch])

/-- Modelled from the spec: `add(key, value)`, append a fresh simple child. -/
def addValue (c : Config) (k v : String) : Config := c.add (ofKeyValue k v)

/-- Modelled from the spec: `add(key, node)`, append a copy of `node` re-keyed as `k`. -/
def addKeyed (c : Config) (k : String) (ch : Config) : Config := c.add (ch.setKey k)

/-- Modelled from the spec: `remove(key)`, drop every child named `k`. -/
def remove (c : Config) (k : String) : Config :=
  c.setChildren (c.children.filter (fun ch => !decide (ch.key = k)))

/-- Modelled from the spec: `set(key, value)`, replace-or-insert a single occurrence: every
child named `k` is dropped and one fresh simple child is appended. -/
def set (c : Config) (k v : String) : Config := (c.remove k).addValue k v

/-- Modelled from the spec: `merge(other)`, "other's keys override/extend self's": the children
of `self` whose key occurs in `other` are dropped, then all children of `other` are appended. -/
def merge (c rhs : Config) : Config :=
  let removed := rhs.children.foldl (fun acc ch => acc.remove ch.key) c
  rhs.children.foldl (fun acc ch => acc.add ch) removed

/-- The node reached from `c` by following child indices `path` (root = empty path). -/
def nodeAt : Config → List Nat → Option Config
  | c, [] => some c
  | c, i :: rest =>
    match c.children[i]? with
    | some ch => nodeAt ch rest
    | none => none

end Config

/-! ## External file-system collaborators -/

/-- The file-system and path utilities the source calls (`osgDB`, `osgEarth::URI`); they are
outside the repository and appear here as uninterpreted functions. -/
structure FileSystem where
  /-- The function `osgDB::fileExists`. -/
  fileExists : String → Bool
  /-- The function `osgDB::isAbsolutePath`. -/
  isAbsolutePath : String → Bool
  /-- The result of `URI(value, URIContext(referrer)).full()`. -/
  uriFull : String → String → String
  /-- The function `osgDB::convertFileNameToUnixStyle`. -/
  convertFileNameToUnixStyle : String → String
  /-- The function `osgDB::getPathRelative(from, to)`. -/
  getPathRelative : String → String → String
  /-- The function `osgDB::getRealPath`. -/
  getRealPath : String → String
  /-- The function `osgDB::findDataFile`. -/
  findDataFile : String → String
  /-- The function `osgDB::getFilePath`. -/
  getFilePath : String → String
  /-- The function `osgEarth::getFullPath(relativeTo, relativePath)`. -/
  getFullPath : String → String → String

/-! ## Path rewriter (source lines 104-161) -/

/-- The visitor state of `struct RewritePaths`. -/
structure RewritePaths where
  /-- Field `_rewriteAbsolutePaths`. -/
  rewriteAbsolutePaths : Bool
  /-- Field `_newReferrerAbsPath`. -/
  newReferrerAbsPath : String
  /-- Field `_newReferrerFolder`. -/
  newReferrerFolder : String

namespace RewritePaths

/-- The constructor `RewritePaths(referrer)` (lines 110-115). -/
def new (fs : FileSystem) (referrer : String) : RewritePaths :=
  let newReferrerAbsPath := fs.convertFileNameToUnixStyle (fs.getRealPath referrer)
  { rewriteAbsolutePaths := false
    newReferrerAbsPath := newReferrerAbsPath
    newReferrerFolder := fs.getFilePath (fs.findDataFile newReferrerAbsPath) }

/-- The setter `setRewriteAbsolutePaths(value)` (lines 118-121). -/
def setRewriteAbsolutePaths (rp : RewritePaths) (value : Bool) : RewritePaths :=
  { rp with rewriteAbsolutePaths := value }

/-- The body of `apply` before the loop over the children (lines 126-154): the possibly
rewritten node, children not yet visited. -/
def applyNode (fs : FileSystem) (rp : RewritePaths) (input : Config) : Config :=
  if input.referrer ≠ "" ∧ input.isSimple = true then
    let inputAbsPath := fs.convertFileNameToUnixStyle (fs.uriFull input.value input.referrer)
    if fs.fileExists inputAbsPath = true then
      if fs.isAbsolutePath input.value = false ∨ rp.rewriteAbsolutePaths = true then
        let inputNewRelPath := fs.getPathRelative rp.newReferrerFolder inputAbsPath
        if input.value ≠ inputNewRelPath then
          (input.setValue inputNewRelPath).setReferrer rp.newReferrerAbsPath
        else input
      else input
    else input
  else input

mutual
/-- The method `RewritePaths::apply` (lines 123-160); the in-place update of the tree is
returned as the new tree. -/
def apply (fs : FileSystem) (rp : RewritePaths) : Config → Config
  | .mk k v r cs =>
    let visited := applyNode fs rp (.mk k v r cs)
    .mk visited.key visited.value visited.referrer (applyChildren fs rp cs)
/-- The loop of `apply` over `input.children()` (lines 156-159). -/
def applyChildren (fs : FileSystem) (rp : RewritePaths) : List Config → List Config
  | [] => []
  | c :: cs => apply fs rp c :: applyChildren fs rp cs
end

end RewritePaths

/-! ## In-memory model and external collaborators -/

/-- The four layer kinds the serializer reads (`image`, `elevation`, `model`, `mask`). -/
inductive LayerKind where
  | image
  | elevation
  | model
  | mask
deriving DecidableEq

/-- Modelled from the spec: a layer ("a named, typed unit of content with driver-specific
options"); the layer classes are not in the source file.  A layer is built from its options
object and keeps it: `options` is what the kind's options constructor made of the section,
`name` is `name()` / `getName()`, `driver` is `driver()`. -/
structure Layer (Opt Src : Type) where
  /-- The options object built by the layer-options collaborator. -/
  options : Opt
  /-- The layer name, `name()`. -/
  name : String
  /-- The driver options, `driver()`. -/
  driver : Src

/-- Modelled from the spec: the external collaborators of section 6, which are not in the
source file: the layer-options constructors and their inverses, the driver-options
constructors, the driver tag of driver options and the extension constructor. -/
structure Collaborators (Opt Src Ext : Type) where
  /-- The constructors `ImageLayerOptions(conf)`, `ElevationLayerOptions(conf)`,
  `ModelLayerOptions(conf)`, `MaskLayerOptions(conf)`: `optionsFromDocument(section)`. -/
  optionsFromDocument : LayerKind → Config → Opt
  /-- The accessor `driver()` of a freshly constructed options object. -/
  driverOf : LayerKind → Opt → Src
  /-- The constructor `ModelSourceOptions(conf)`. -/
  sourceFromDocument : LayerKind → Config → Src
  /-- The constructor `MaskSourceOptions(options)`, from an options object and its name. -/
  sourceFromOptions : LayerKind → Opt → String → Src
  /-- The method `getConfig()` of a layer's options: `documentFromOptions(options)`. -/
  documentFromOptions : LayerKind → Layer Opt Src → Config
  /-- The method `getDriver()` of driver options: the driver tag. -/
  getDriver : Src → String
  /-- The factory `Extension::create(key, conf)`: `createExtension(tagName, section)`. -/
  createExtension : String → Config → Option Ext

/-- Modelled from the spec: the Model of section 3 (class `Map`, not in the source file): the
options bag it was constructed from, three ordered layer lists and at most one terrain-mask
layer. -/
structure Map (Opt Src : Type) where
  /-- The options the map was constructed with, `getInitialMapOptions().getConfig()`. -/
  initialMapOptions : Config
  /-- Image layers, in insertion order. -/
  imageLayers : List (Layer Opt Src)
  /-- Elevation layers, in insertion order. -/
  elevationLayers : List (Layer Opt Src)
  /-- Model layers, in insertion order. -/
  modelLayers : List (Layer Opt Src)
  /-- The terrain-mask layer, if any. -/
  terrainMaskLayer : Option (Layer Opt Src)

namespace Map

/-- Modelled from the spec: `new Map(mapOptions)`, a model without layers. -/
def new {Opt Src : Type} (mapOptions : Config) : Map Opt Src :=
  { initialMapOptions := mapOptions, imageLayers := [], elevationLayers := [],
    modelLayers := [], terrainMaskLayer := none }

/-- Modelled from the spec: `addImageLayer`; "layers are appended, never reordered". -/
def addImageLayer {Opt Src : Type} (m : Map Opt Src) (l : Layer Opt Src) : Map Opt Src :=
  { m with imageLayers := m.imageLayers ++ [l] }

/-- Modelled from the spec: `addElevationLayer`; "layers are appended, never reordered". -/
def addElevationLayer {Opt Src : Type} (m : Map Opt Src) (l : Layer Opt Src) : Map Opt Src :=
  { m with elevationLayers := m.elevationLayers ++ [l] }

/-- Modelled from the spec: `addModelLayer`; "layers are appended, never reordered". -/
def addModelLayer {Opt Src : Type} (m : Map Opt Src) (l : Layer Opt Src) : Map Opt Src :=
  { m with modelLayers := m.modelLayers ++ [l] }

/-- Modelled from the spec: `addTerrainMaskLayer`; the model holds at most one terrain-mask
layer, the layer added becomes that layer. -/
def addTerrainMaskLayer {Opt Src : Type} (m : Map Opt Src) (l : Layer Opt Src) : Map Opt Src :=
  { m with terrainMaskLayer := some l }

end Map

/-- Modelled from the spec: the wrapper of section 3 (class `MapNode`, not in the source file):
the model (possibly null), the node-level options, the stored extension subtree and the
attached extensions. -/
structure MapNode (Opt Src Ext : Type) where
  /-- The model, `getMap()`; `none` is a null pointer. -/
  map : Option (Map Opt Src)
  /-- The node-level options, `getMapNodeOptions().getConfig()`. -/
  mapNodeOptions : Config
  /-- The stored extension subtree, `externalConfig()`. -/
  externalConfig : Config
  /-- The attached extensions, in attachment order. -/
  extensions : List Ext

namespace MapNode

/-- Modelled from the spec: `new MapNode(map, mapNodeOptions)`: no extension subtree stored,
no extension attached. -/
def new {Opt Src Ext : Type} (map : Map Opt Src) (mapNodeOptions : Config) :
    MapNode Opt Src Ext :=
  { map := some map, mapNodeOptions := mapNodeOptions,
    externalConfig := Config.emptyConfig, extensions := [] }

/-- Modelled from the spec: `addExtension`, attach in order. -/
def addExtension {Opt Src Ext : Type} (n : MapNode Opt Src Ext) (e : Ext) :
    MapNode Opt Src Ext :=
  { n with extensions := n.extensions ++ [e] }

end MapNode

/-! ## Deserializer (source lines 167-283) -/

section Serializer

variable {Opt Src Ext : Type}

/-- The `legacy` fragment of lines 178-180: a fresh node holding `name` and/or `type` copied
from the top-level values that are present. -/
def legacyFragment (conf : Config) : Config :=
  let legacy := Config.emptyConfig
  let legacy := if conf.hasValue "name" then legacy.addValue "name" (conf.valueOf "name")
    else legacy
  let legacy := if conf.hasValue "type" then legacy.addValue "type" (conf.valueOf "type")
    else legacy
  legacy

/-- The map options of lines 173-182: built from the `options` child, with the legacy fragment
merged in when a top-level `name` or `type` value is present. -/
def deserializeMapOptions (conf : Config) : Config :=
  let mapOptions := conf.child "options"
  if conf.hasValue "name" || conf.hasValue "type" then
    mapOptions.merge (legacyFragment conf)
  else mapOptions

/-- The image layer of lines 195-200, from one `image` section. -/
def imageLayerOf (c : Collaborators Opt Src Ext) (layerDriverConf : Config) : Layer Opt Src :=
  let layerOpt := c.optionsFromDocument .image layerDriverConf
  { options := layerOpt, name := layerDriverConf.valueOf "name",
    driver := c.driverOf .image layerOpt }

/-- The elevation layer of lines 211-216, from one `elevation` or `heightfield` section. -/
def elevationLayerOf (c : Collaborators Opt Src Ext) (layerDriverConf : Config) :
    Layer Opt Src :=
  let layerOpt := c.optionsFromDocument .elevation layerDriverConf
  { options := layerOpt, name := layerDriverConf.valueOf "name",
    driver := c.driverOf .elevation layerOpt }

/-- The model layer of lines 224-230, from one `model` section. -/
def modelLayerOf (c : Collaborators Opt Src Ext) (layerDriverConf : Config) : Layer Opt Src :=
  let layerOpt := c.optionsFromDocument .model layerDriverConf
  { options := layerOpt, name := layerDriverConf.valueOf "name",
    driver := c.sourceFromDocument .model layerDriverConf }

/-- The mask layer of lines 237-243, from one `mask` section. -/
def maskLayerOf (c : Collaborators Opt Src Ext) (maskLayerConf : Config) : Layer Opt Src :=
  let options := c.optionsFromDocument .mask maskLayerConf
  let name := maskLayerConf.valueOf "name"
  { options := options, name := name, driver := c.sourceFromOptions .mask options name }

/-- The layer loops of lines 191-244, adding to the freshly constructed map. -/
def deserializeLayers (c : Collaborators Opt Src Ext) (conf : Config) (map : Map Opt Src) :
    Map Opt Src :=
  -- Image layers:
  let images := conf.childrenOf "image"
  let map := images.foldl (fun m layerDriverConf => m.addImageLayer (imageLayerOf c layerDriverConf))
    map
  -- Elevation layers:
  let map := [0, 1].foldl (fun m k =>
      let tagName := if k = 0 then "elevation" else "heightfield"
      let heightfields := conf.childrenOf tagName
      heightfields.foldl (fun m layerDriverConf =>
        m.addElevationLayer (elevationLayerOf c layerDriverConf)) m)
    map
  -- Model layers:
  let models := conf.childrenOf "model"
  let map := models.foldl (fun m layerDriverConf => m.addModelLayer (modelLayerOf c layerDriverConf))
    map
  -- Mask layer:
  let masks := conf.childrenOf "mask"
  masks.foldl (fun m maskLayerConf => m.addTerrainMaskLayer (maskLayerOf c maskLayerConf)) map

/-- The search-path loop of lines 248-255: the registry's data-file path list after the
`url` children of `options/osg_file_paths` were appended. -/
def deserializeFilePaths (fs : FileSystem) (conf : Config) (referrer : String)
    (dataFilePathList : List String) : List String :=
  let osg_file_paths := (conf.child "options").child "osg_file_paths"
  let urls := osg_file_paths.childrenOf "url"
  urls.foldl (fun paths url => paths ++ [fs.getFullPath referrer url.value]) dataFilePathList

/-- The extension subtree selected by lines 261-263: `external`, or `extensions` when the
former is empty. -/
def selectExtensions (conf : Config) : Config :=
  let ext := conf.child "external"
  if ext.empty then conf.child "extensions" else ext

/-- Lines 265-280: store the selected subtree and attach the extensions it creates. -/
def installExtensions (c : Collaborators Opt Src Ext) (ext : Config)
    (mapNode : MapNode Opt Src Ext) : MapNode Opt Src Ext :=
  if !ext.empty then
    let mapNode := { mapNode with externalConfig := ext }
    ext.children.foldl (fun node i =>
      match c.createExtension i.key i with
      | some extension => node.addExtension extension
      | none => node) mapNode
  else mapNode

/-- The method `EarthFileSerializer2::deserialize` (lines 167-283).  The result is the wrapper
together with the registry's data-file path list after the call.  The call
`preloadExtensionLibs(conf)` of line 171 is not modelled: it reads the keys of the children of
`extensions` (not of `external`) and the `libraries` value and asks the registry to load
shared libraries, an effect on the process and not on the document; which extensions the
factory can then construct is left to the uninterpreted `createExtension`, so nothing is
proved here that compares the extensions created in two different runs. -/
def deserialize (c : Collaborators Opt Src Ext) (fs : FileSystem) (conf : Config)
    (referrer : String) (dataFilePathList : List String) :
    MapNode Opt Src Ext × List String :=
  let mapOptions := deserializeMapOptions conf
  let map : Map Opt Src := Map.new mapOptions
  let mapNodeOptions := conf.child "options"
  let map := deserializeLayers c conf map
  let paths := deserializeFilePaths fs conf referrer dataFilePathList
  let mapNode : MapNode Opt Src Ext := MapNode.new map mapNodeOptions
  let ext := selectExtensions conf
  (installExtensions c ext mapNode, paths)

/-! ## Serializer (source lines 286-348) -/

/-- The root of lines 289-290: a `map` node with the version marker. -/
def serializeHeader : Config := (Config.ofKey "map").set "version" "2"

/-- The section emitted for one image or elevation or model layer (lines 306-311, 316-321,
326-330): the layer's options document stamped with name and driver tag. -/
def layerSection (c : Collaborators Opt Src Ext) (kind : LayerKind) (layer : Layer Opt Src) :
    Config :=
  let layerConf := c.documentFromOptions kind layer
  let layerConf := layerConf.set "name" layer.name
  layerConf.set "driver" (c.getDriver layer.driver)

/-- Lines 295-338: the document emitted for a wrapper with a model, before path rewriting. -/
def serializeSections (c : Collaborators Opt Src Ext) (input : MapNode Opt Src Ext)
    (map : Map Opt Src) (mapConf : Config) : Config :=
  -- the map and node options:
  let optionsConf := map.initialMapOptions
  let optionsConf := optionsConf.merge input.mapNodeOptions
  let mapConf := mapConf.addKeyed "options" optionsConf
  -- the layers
  let mapConf := map.imageLayers.foldl (fun conf layer =>
    conf.addKeyed "image" (layerSection c .image layer)) mapConf
  let mapConf := map.elevationLayers.foldl (fun conf layer =>
    conf.addKeyed "elevation" (layerSection c .elevation layer)) mapConf
  let mapConf := map.modelLayers.foldl (fun conf layer =>
    conf.addKeyed "model" (layerSection c .model layer)) mapConf
  let ext := input.externalConfig
  if !ext.empty then mapConf.add (ext.setKey "extensions") else mapConf

/-- The document `serialize` has built when it reaches line 340 or returns at line 293: the
freshly emitted document, before any path rewriting. -/
def emitDocument (c : Collaborators Opt Src Ext) (input : Option (MapNode Opt Src Ext)) :
    Config :=
  match input with
  | none => serializeHeader
  | some node =>
    match node.map with
    | none => serializeHeader
    | some map => serializeSections c node map serializeHeader

/-- The method `EarthFileSerializer2::serialize` (lines 286-348); a null `input` is `none`. -/
def serialize (c : Collaborators Opt Src Ext) (fs : FileSystem)
    (input : Option (MapNode Opt Src Ext)) (referrer : String) : Config :=
  let mapConf := serializeHeader
  match input with
  | none => mapConf
  | some node =>
    match node.map with
    | none => mapConf
    | some map =>
      let mapConf := serializeSections c node map mapConf
      -- visit the Config to find nodes with a referrer set.
      if referrer ≠ "" then
        RewritePaths.apply fs (RewritePaths.new fs referrer) mapConf
      else mapConf

end Serializer

/-! ## A concrete file system used for the worked examples -/

/-- A small file system: three files exist, `/maps/a.tif`, `/out/maps/a.tif` and
`/share/new.earth`; `/share` is on the data-file search path, so `findDataFile` of the not yet
written `/out/sub/new.earth` falls back to the file of the same name in `/share`. -/
def sampleFS : FileSystem where
  fileExists p :=
    decide (p = "/maps/a.tif") || decide (p = "/out/maps/a.tif") || decide (p = "/share/new.earth")
  isAbsolutePath p := decide (p.data.head? = some '/')
  uriFull v r :=
    if v.data.head? = some '/' then v
    else if r = "/maps/old.earth" then "/maps/" ++ v
    else if r = "/out/sub/new.earth" then
      (if v = "../maps/a.tif" then "/out/maps/a.tif"
       else if v = "../out/maps/a.tif" then "/out/out/maps/a.tif"
       else "/out/sub/" ++ v)
    else if r = "/share/new.earth" then
      (if v = "../maps/a.tif" then "/maps/a.tif"
       else if v = "../out/maps/a.tif" then "/out/maps/a.tif"
       else "/share/" ++ v)
    else v
  convertFileNameToUnixStyle p := p
  getPathRelative fromDir toPath :=
    if fromDir = "/share" ∧ toPath = "/maps/a.tif" then "../maps/a.tif"
    else if fromDir = "/share" ∧ toPath = "/out/maps/a.tif" then "../out/maps/a.tif"
    else if fromDir = "/share" ∧ toPath = "/share/new.earth" then "new.earth"
    else toPath
  getRealPath p := p
  findDataFile p :=
    if p = "/maps/a.tif" ∨ p = "/out/maps/a.tif" ∨ p = "/share/new.earth" then p
    else if p = "/out/sub/new.earth" then "/share/new.earth"
    else ""
  getFilePath p := if p = "/share/new.earth" then "/share" else ""
  getFullPath relativeTo relativePath :=
    if relativePath.data.head? = some '/' then relativePath
    else if relativeTo = "/maps/old.earth" then "/maps/" ++ relativePath
    else relativePath

/-- A document read from `/maps/old.earth`: one image section with a relative path leaf, a
driver tag that is no path, and an absolute path leaf. -/
def sampleDoc : Config :=
  .mk "map" "" "/maps/old.earth"
    [.mk "image" "" "/maps/old.earth"
      [.mk "url" "a.tif" "/maps/old.earth" [],
       .mk "driver" "gdal" "/maps/old.earth" [],
       .mk "icon" "/maps/a.tif" "/maps/old.earth" []]]

/-- Sample collaborators: an options object is the section itself, driver options are
the section's `driver` value, and every extension key but `unknown` yields an extension. -/
def sampleCollab : Collaborators Config String String where
  optionsFromDocument _ conf := conf
  driverOf _ opt := opt.valueOf "driver"
  sourceFromDocument _ conf := conf.valueOf "driver"
  sourceFromOptions _ opt _ := opt.valueOf "driver"
  documentFromOptions _ layer := layer.options
  getDriver src := src
  createExtension key _ := if key = "unknown" then none else some key

/-- A leaf-only section `key` with a `name` and a `driver` value, as read from a document. -/
def sampleSection (key name driver : String) : Config :=
  .mk key "" "" [Config.ofKeyValue "name" name, Config.ofKeyValue "driver" driver]

/-- A document whose `heightfield` section stands between its two `elevation` sections. -/
def interleavedDoc : Config :=
  .mk "map" "" ""
    [sampleSection "elevation" "e1" "gdal",
     sampleSection "heightfield" "h1" "tms",
     sampleSection "elevation" "e2" "gdal"]

/-- A document whose only extension section is `external`. -/
def externalDoc : Config :=
  .mk "map" "" "" [.mk "external" "" "" [sampleSection "viewpoints" "v" "none"]]

/-- The same document with the section tagged `extensions` instead. -/
def extensionsDoc : Config :=
  .mk "map" "" "" [.mk "extensions" "" "" [sampleSection "viewpoints" "v" "none"]]

mutual
/-- The tree with every referrer cleared: what is left is the contents (keys, values and
children) of the tree. -/
def Config.eraseReferrers : Config → Config
  | .mk k v _ cs => .mk k v "" (Config.eraseReferrersList cs)
/-- The list of trees with every referrer cleared. -/
def Config.eraseReferrersList : List Config → List Config
  | [] => []
  | c :: cs => Config.eraseReferrers c :: Config.eraseReferrersList cs
end

/-- The leaf carrying an optional value under `key`: one simple node with the given referrer
when the value is present, nothing otherwise. -/
def optionalLeaf (key : String) (value : Option String) (referrer : String) : List Config :=
  match value with
  | some v => [.mk key v referrer []]
  | none => []

/-- The map options held by the model of a wrapper (the empty node for a wrapper without
model). -/
def mapOptionsOf {Opt Src Ext : Type} (w : MapNode Opt Src Ext) : Config :=
  match w.map with
  | some m => m.initialMapOptions
  | none => Config.emptyConfig

/-- An old-style document: `name` and `type` (each optional) are top-level values, the
`options` section has children `pre ++ post`, and `rest` are the remaining sections. -/
def legacyStyleDoc (k v r : String) (name type : Option String) (rTop : String)
    (ov orf : String) (pre post rest : List Config) : Config :=
  .mk k v r (optionalLeaf "name" name rTop ++ optionalLeaf "type" type rTop ++
    .mk "options" ov orf (pre ++ post) :: rest)

/-- The otherwise identical new-style document: the same `name` and `type` values are nested
inside the `options` section, between `pre` and `post`. -/
def nestedStyleDoc (k v r : String) (name type : Option String) (rNested : String)
    (ov orf : String) (pre post rest : List Config) : Config :=
  .mk k v r (.mk "options" ov orf
    (pre ++ (optionalLeaf "name" name rNested ++ optionalLeaf "type" type rNested) ++ post)
      :: rest)

/-- The `extensions` part of the emitted document: the stored subtree re-keyed, when it is not
empty. -/
def extensionsPart (ext : Config) : List Config :=
  if ext.empty = true then [] else [ext.setKey "extensions"]

/-- A layer of the sample collaborators, made from a section. -/
def sampleLayer (sect : Config) : Layer Config String :=
  { options := sect, name := sect.valueOf "name", driver := sect.valueOf "driver" }

/-- A wrapper with one image layer `base` (driver `tms`), elevation layers `terrain` and
`bathymetry` (driver `gdal`), one model layer `roads` and a stored extension subtree. -/
def sampleNode : MapNode Config String String :=
  { map := some
      { initialMapOptions := .mk "options" "" "" [Config.ofKeyValue "name" "world"]
        imageLayers := [sampleLayer (sampleSection "image" "base" "tms")]
        elevationLayers := [sampleLayer (sampleSection "elevation" "terrain" "gdal"),
          sampleLayer (sampleSection "heightfield" "bathymetry" "gdal")]
        modelLayers := [sampleLayer (sampleSection "model" "roads" "feature_geom")]
        terrainMaskLayer := none }
    mapNodeOptions := .mk "options" "" "" [Config.ofKeyValue "lighting" "false"]
    externalConfig := .mk "external" "" "" [sampleSection "viewpoints" "v" "none"]
    extensions := ["viewpoints"] }

/-! ## Round trip: documents and their comparison -/

/-- The layer-option collaborators are exact inverses of each other: the document of the
options made from a section is that section, and the driver tag of those options is
the section's `driver` value. -/
def InverseCollaborators {Opt Src Ext : Type} (c : Collaborators Opt Src Ext) : Prop :=
  (∀ s, c.documentFromOptions .image (imageLayerOf c s) = s) ∧
  (∀ s, c.documentFromOptions .elevation (elevationLayerOf c s) = s) ∧
  (∀ s, c.documentFromOptions .model (modelLayerOf c s) = s) ∧
  (∀ s, c.getDriver (imageLayerOf c s).driver = s.valueOf "driver") ∧
  (∀ s, c.getDriver (elevationLayerOf c s).driver = s.valueOf "driver") ∧
  (∀ s, c.getDriver (modelLayerOf c s).driver = s.valueOf "driver")

/-- No node of the document is a path-like leaf: a leaf with a referrer whose value, resolved
against that referrer, names an existing file. -/
def NoPathLeaves (fs : FileSystem) (doc : Config) : Prop :=
  ∀ (path : List Nat) (n : Config), doc.nodeAt path = some n → n.children = [] →
    n.referrer ≠ "" →
    fs.fileExists (fs.convertFileNameToUnixStyle (fs.uriFull n.value n.referrer)) = false

/-- The bare document: a `map` root and nothing else. -/
def bareDoc : Config := .mk "map" "" "" []

/-- A document with version marker and options whose elevation source is tagged
`heightfield`. -/
def heightfieldDoc : Config :=
  .mk "map" "" "" [Config.ofKeyValue "version" "2", .mk "options" "" "" [],
    sampleSection "heightfield" "terrain" "gdal"]

mutual
/-- Decision procedure for `NoPathLeaves`: no leaf of the tree has a referrer and names an
existing file. -/
def Config.noPathLeaf (fs : FileSystem) : Config → Bool
  | .mk _ v r cs =>
    (!(cs.isEmpty && decide (r ≠ "")) ||
      !fs.fileExists (fs.convertFileNameToUnixStyle (fs.uriFull v r))) &&
    Config.noPathLeafList fs cs
/-- Decision procedure for `NoPathLeaves` on a list of trees. -/
def Config.noPathLeafList (fs : FileSystem) : List Config → Bool
  | [] => true
  | c :: cs => Config.noPathLeaf fs c && Config.noPathLeafList fs cs
end

mutual
/-- The shape of a tree: its keys and its nesting, every value and referrer cleared. -/
def Config.skeleton : Config → Config
  | .mk k _ _ cs => .mk k "" "" (Config.skeletonList cs)
/-- The shapes of a list of trees, in order. -/
def Config.skeletonList : List Config → List Config
  | [] => []
  | c :: cs => Config.skeleton c :: Config.skeletonList cs
end

/-! ## Sample documents for the deserializer -/

/-- The document of the concrete scenario: empty `options`, one image section `base` (driver
`tms`), one elevation section `terrain` (driver `gdal`), read from `/data/world.earth`. -/
def worldDoc : Config :=
  .mk "map" "" "/data/world.earth"
    [.mk "options" "" "/data/world.earth" [],
     sampleSection "image" "base" "tms",
     sampleSection "elevation" "terrain" "gdal"]

/-- A document with two `mask` sections. -/
def twoMaskDoc : Config :=
  .mk "map" "" "" [sampleSection "mask" "coast" "feature", sampleSection "mask" "lake" "feature"]

/-- A document with a non-empty `external` section (two children, the second of a kind no
extension is registered for) and a non-empty `extensions` section. -/
def bothExtensionsDoc : Config :=
  .mk "map" "" ""
    [.mk "extensions" "" "" [sampleSection "sky" "s" "none"],
     .mk "external" "" ""
       [sampleSection "viewpoints" "v" "none", sampleSection "unknown" "u" "none"]]

/-- A document whose `options/osg_file_paths` subtree lists two search paths, one relative and
one absolute, between children of other names. -/
def searchPathDoc : Config :=
  .mk "map" "" "/maps/old.earth"
    [.mk "options" "" "/maps/old.earth"
      [.mk "osg_file_paths" "" "/maps/old.earth"
        [.mk "url" "textures" "/maps/old.earth" [],
         .mk "note" "ignored" "/maps/old.earth" [],
         .mk "url" "/opt/models" "/maps/old.earth" []]]]

/-! ## Saving a document in place -/

/-- A file system for a document saved where it was read from: `/maps/old.earth` and
`/maps/a.tif` exist, so the anchor folder of the new referrer `/maps/old.earth` is its own
directory `/maps`. -/
def inPlaceFS : FileSystem where
  fileExists p := decide (p = "/maps/a.tif") || decide (p = "/maps/old.earth")
  isAbsolutePath p := decide (p.data.head? = some '/')
  uriFull v r :=
    if v.data.head? = some '/' then v
    else if r = "/maps/old.earth" then (if v = "./a.tif" then "/maps/a.tif" else "/maps/" ++ v)
    else v
  convertFileNameToUnixStyle p := p
  getPathRelative fromDir toPath :=
    if fromDir = "/maps" ∧ toPath = "/maps/a.tif" then "a.tif" else toPath
  getRealPath p := p
  findDataFile p := if p = "/maps/a.tif" ∨ p = "/maps/old.earth" then p else ""
  getFilePath p := if p = "/maps/old.earth" then "/maps" else ""
  getFullPath relativeTo relativePath :=
    if relativePath.data.head? = some '/' then relativePath
    else if relativeTo = "/maps/old.earth" then "/maps/" ++ relativePath
    else relativePath

/-- A document read from `/maps/old.earth` whose image `url` is the relative path `./a.tif`. -/
def dotLeafDoc : Config :=
  .mk "map" "" "/maps/old.earth"
    [.mk "image" "" "/maps/old.earth" [.mk "url" "./a.tif" "/maps/old.earth" []]]

/-- An old-style document without `options` section: `name` and `type` (each optional) are
top-level values and `rest` are the remaining sections. -/
def legacyStyleDocNoOptions (k v r : String) (name type : Option String) (rTop : String)
    (rest : List Config) : Config :=
  .mk k v r (optionalLeaf "name" name rTop ++ optionalLeaf "type" type rTop ++ rest)

/-- The section a layer section comes back as from `deserialize` followed by `serialize`:
its `name` and `driver` children are dropped and one fresh `name` leaf and one fresh `driver`
leaf, holding the section's `name` and `driver` values, are appended in this order. -/
def restampSection (s : Config) : Config :=
  (s.set "name" (s.valueOf "name")).set "driver" (s.valueOf "driver")

/-- The children `l` grouped by key, the groups in the order of `keys` and every group in
document order. -/
def sectionsByKey : List String → List Config → List Config
  | [], _ => []
  | k :: ks, l => l.filter (fun ch => decide (ch.key = k)) ++ sectionsByKey ks l

/-- Two sections are the same up to the order of their children: same key, same value, and
children that are, referrers aside, a rearrangement of each other. -/
def SameSection (a b : Config) : Prop :=
  a.key = b.key ∧ a.value = b.value ∧
    List.Perm (Config.eraseReferrersList a.children) (Config.eraseReferrersList b.children)

/-- Two documents are equal modulo the ordering of their sections (and of the children within
a section, and referrers aside): same root key and value, and the sections of the first are,
one for one, the same as some rearrangement of the sections of the second. -/
def SameDocument (a b : Config) : Prop :=
  a.key = b.key ∧ a.value = b.value ∧
    ∃ l : List Config, List.Perm l b.children ∧ List.Forall₂ SameSection a.children l

/-- A document made of what `serialize` writes, in any order: a `map` root without value whose
children are one version marker `2`, one `options` section, `image`, `elevation` and
`model` sections and at most one `extensions` section, every layer section having exactly one `name`
child and exactly one `driver` child, both leaves.  Referrers are not restricted. -/
def SerializedLayout (doc : Config) : Prop :=
  doc.key = "map" ∧ doc.value = "" ∧
  (∀ ch ∈ doc.children,
    ch.key ∈ ["version", "options", "image", "elevation", "model", "extensions"]) ∧
  (∃ ver, doc.childrenOf "version" = [ver] ∧ ver.value = "2" ∧ ver.children = []) ∧
  (∃ opts, doc.childrenOf "options" = [opts]) ∧
  (doc.childrenOf "extensions").length ≤ 1 ∧
  (∀ s ∈ doc.children, s.key ∈ ["image", "elevation", "model"] →
    (∃ n, s.childrenOf "name" = [n] ∧ n.children = []) ∧
    (∃ d, s.childrenOf "driver" = [d] ∧ d.children = []))

/-- A layer section as a parser tags it when reading `/maps/old.earth`: every node carries the
referrer, the `name` leaf comes first and the `driver` leaf second, a tile `url` that is no
file last. -/
def taggedSection (key name driver : String) : Config :=
  .mk key "" "/maps/old.earth"
    [.mk "name" name "/maps/old.earth" [],
     .mk "driver" driver "/maps/old.earth" [],
     .mk "url" "http://tiles.example/" "/maps/old.earth" []]

/-- A document as read from `/maps/old.earth`, every node tagged with that referrer,
its sections not in the order `serialize` writes: the elevation section stands before the
image section, the options come last and the version marker stands in the middle. -/
def taggedDoc : Config :=
  .mk "map" "" "/maps/old.earth"
    [taggedSection "elevation" "terrain" "gdal",
     .mk "extensions" "" "/maps/old.earth" [.mk "sky" "" "/maps/old.earth" []],
     taggedSection "image" "base" "tms",
     .mk "version" "2" "/maps/old.earth" [],
     taggedSection "model" "roads" "feature_geom",
     taggedSection "image" "labels" "tms",
     .mk "options" "" "/maps/old.earth" [.mk "lighting" "false" "/maps/old.earth" []]]

/-! ## Basic facts about the tree and the rewriter -/

theorem Config.eta (c : Config) : Config.mk c.key c.value c.referrer c.children = c := by
  cases c; rfl

/-- Induction over a document tree: a property holds of every node when it holds of a node
whenever it holds of all of that node's children. -/
theorem Config.induct {P : Config → Prop}
    (step : ∀ k v r cs, (∀ c ∈ cs, P c) → P (Config.mk k v r cs)) (c : Config) : P c :=
  @Config.rec P (fun cs => ∀ c ∈ cs, P c)
    (fun k v r cs ih => step k v r cs ih)
    (fun c hc => by cases hc)
    (fun hd tl ihd itl c hc => by
      rcases List.mem_cons.mp hc with h | h
      · exact h ▸ ihd
      · exact itl c h)
    c

namespace RewritePaths

theorem applyChildren_eq_map (fs : FileSystem) (rp : RewritePaths) (cs : List Config) :
    applyChildren fs rp cs = cs.map (apply fs rp) := by
  induction cs with
  | nil => simp [applyChildren]
  | cons c cs ih => simp [applyChildren, ih]

theorem applyNode_key (fs : FileSystem) (rp : RewritePaths) (c : Config) :
    (applyNode fs rp c).key = c.key := by
  cases c
  unfold applyNode
  simp only [Config.setValue, Config.setReferrer, Config.key]
  split_ifs <;> rfl

theorem applyNode_children (fs : FileSystem) (rp : RewritePaths) (c : Config) :
    (applyNode fs rp c).children = c.children := by
  cases c
  unfold applyNode
  simp only [Config.setValue, Config.setReferrer, Config.children]
  split_ifs <;> rfl

theorem apply_eq (fs : FileSystem) (rp : RewritePaths) (c : Config) :
    apply fs rp c =
      Config.mk c.key (applyNode fs rp c).value (applyNode fs rp c).referrer
        (c.children.map (apply fs rp)) := by
  cases c with
  | mk k v r cs =>
    rw [apply, applyChildren_eq_map, applyNode_key]
    rfl

theorem apply_key (fs : FileSystem) (rp : RewritePaths) (c : Config) :
    (apply fs rp c).key = c.key := by
  rw [apply_eq]; rfl

theorem apply_value (fs : FileSystem) (rp : RewritePaths) (c : Config) :
    (apply fs rp c).value = (applyNode fs rp c).value := by
  rw [apply_eq]; rfl

theorem apply_referrer (fs : FileSystem) (rp : RewritePaths) (c : Config) :
    (apply fs rp c).referrer = (applyNode fs rp c).referrer := by
  rw [apply_eq]; rfl

theorem apply_children (fs : FileSystem) (rp : RewritePaths) (c : Config) :
    (apply fs rp c).children = c.children.map (apply fs rp) := by
  rw [apply_eq]; rfl

/-- The rewriter acts node by node: the node at a path of the output is the rewritten node at
the same path of the input. -/
theorem nodeAt_apply (fs : FileSystem) (rp : RewritePaths) (path : List Nat) :
    ∀ c : Config, (apply fs rp c).nodeAt path = (c.nodeAt path).map (apply fs rp) := by
  induction path with
  | nil => intro c; simp [Config.nodeAt]
  | cons i rest ih =>
    intro c
    simp only [Config.nodeAt, apply_children, List.getElem?_map]
    cases h : c.children[i]? with
    | none => simp
    | some ch => simpa using ih ch

/-- A node the visitor leaves alone: composite, or without referrer, or not naming a file, or
absolute while absolute paths are kept. -/
theorem applyNode_eq_self_of_skip (fs : FileSystem) (rp : RewritePaths) (c : Config)
    (h : c.referrer = "" ∨ c.isSimple = false ∨
      fs.fileExists (fs.convertFileNameToUnixStyle (fs.uriFull c.value c.referrer)) = false ∨
      (fs.isAbsolutePath c.value = true ∧ rp.rewriteAbsolutePaths = false)) :
    applyNode fs rp c = c := by
  rcases h with h | h | h | h
  · simp [applyNode, h]
  · simp [applyNode, h]
  · simp [applyNode, h]
  · simp [applyNode, h.1, h.2]

/-- Either the visitor returns the node itself, or it returns the node with a different value
and with the new referrer. -/
theorem applyNode_cases (fs : FileSystem) (rp : RewritePaths) (c : Config) :
    applyNode fs rp c = c ∨
      ((applyNode fs rp c).value ≠ c.value ∧
        (applyNode fs rp c).value = fs.getPathRelative rp.newReferrerFolder
          (fs.convertFileNameToUnixStyle (fs.uriFull c.value c.referrer)) ∧
        fs.fileExists (fs.convertFileNameToUnixStyle (fs.uriFull c.value c.referrer)) = true ∧
        (applyNode fs rp c).referrer = rp.newReferrerAbsPath) := by
  by_cases h1 : c.referrer ≠ "" ∧ c.isSimple = true
  · by_cases h2 : fs.fileExists (fs.convertFileNameToUnixStyle (fs.uriFull c.value c.referrer)) = true
    · by_cases h3 : fs.isAbsolutePath c.value = false ∨ rp.rewriteAbsolutePaths = true
      · by_cases h4 : c.value ≠ fs.getPathRelative rp.newReferrerFolder
            (fs.convertFileNameToUnixStyle (fs.uriFull c.value c.referrer))
        · right
          have e : applyNode fs rp c = (c.setValue (fs.getPathRelative rp.newReferrerFolder
              (fs.convertFileNameToUnixStyle (fs.uriFull c.value c.referrer)))).setReferrer
                rp.newReferrerAbsPath := by
            simp only [applyNode, if_pos h1, if_pos h2, if_pos h3, if_pos h4]
          rw [e]
          exact ⟨fun h => h4 h.symm, rfl, h2, rfl⟩
        · left; simp only [applyNode, if_pos h1, if_pos h2, if_pos h3, if_neg h4]
      · left; simp only [applyNode, if_pos h1, if_pos h2, if_neg h3]
    · left; simp only [applyNode, if_pos h1, if_neg h2]
  · left; simp only [applyNode, if_neg h1]

/-! ## Claims about the path rewriter -/

/-- C1 (code defect, evaluated): on `sampleFS` the target `/out/sub/new.earth` is not written
yet and `findDataFile` falls back to `/share/new.earth`, so the anchor folder is `/share`
while the new referrer is `/out/sub/new.earth`.  The first application turns the leaf `a.tif`
(which names `/maps/a.tif`) into `../maps/a.tif` under the referrer `/out/sub/new.earth`, where
it names `/out/maps/a.tif`: the value is not relative to the new referrer.  The second
application therefore rewrites the leaf again, to `../out/maps/a.tif`, and applying the
rewriter twice is not the same as applying it once. -/
theorem rewritePaths_twice_differs :
    (new sampleFS "/out/sub/new.earth").newReferrerAbsPath = "/out/sub/new.earth" ∧
    (new sampleFS "/out/sub/new.earth").newReferrerFolder = "/share" ∧
    sampleDoc.nodeAt [0, 0] = some (Config.mk "url" "a.tif" "/maps/old.earth" []) ∧
    sampleFS.uriFull "a.tif" "/maps/old.earth" = "/maps/a.tif" ∧
    (apply sampleFS ((new sampleFS "/out/sub/new.earth").setRewriteAbsolutePaths false)
        sampleDoc).nodeAt [0, 0] =
      some (Config.mk "url" "../maps/a.tif" "/out/sub/new.earth" []) ∧
    sampleFS.uriFull "../maps/a.tif" "/out/sub/new.earth" = "/out/maps/a.tif" ∧
    ((apply sampleFS ((new sampleFS "/out/sub/new.earth").setRewriteAbsolutePaths false)
        sampleDoc).nodeAt [0, 0]).map Config.value = some "../maps/a.tif" ∧
    ((apply sampleFS ((new sampleFS "/out/sub/new.earth").setRewriteAbsolutePaths false)
        (apply sampleFS ((new sampleFS "/out/sub/new.earth").setRewriteAbsolutePaths false)
          sampleDoc)).nodeAt [0, 0]).map Config.value = some "../out/maps/a.tif" ∧
    apply sampleFS ((new sampleFS "/out/sub/new.earth").setRewriteAbsolutePaths false)
        (apply sampleFS ((new sampleFS "/out/sub/new.earth").setRewriteAbsolutePaths false)
          sampleDoc) ≠
      apply sampleFS ((new sampleFS "/out/sub/new.earth").setRewriteAbsolutePaths false)
        sampleDoc := by
  refine ⟨rfl, rfl, rfl, rfl, rfl, rfl, by decide, by decide, ?_⟩
  intro h
  have h2 := congrArg (fun t : Config => (t.nodeAt [0, 0]).map Config.value) h
  revert h2
  decide

/-- C2: for every tree, new referrer and flag setting, a leaf (no children) anywhere in the tree
whose referrer is non-empty and whose value, resolved against its own referrer, does not name
an existing file is found at the same place of the rewritten tree with the same value and the
same referrer. -/
theorem nonPath_leaf_untouched (fs : FileSystem) (referrer : String) (flag : Bool)
    (input : Config) (path : List Nat) (leaf : Config)
    (hAt : input.nodeAt path = some leaf)
    (hLeaf : leaf.children = [])
    (hRef : leaf.referrer ≠ "")
    (hNoFile : fs.fileExists
      (fs.convertFileNameToUnixStyle (fs.uriFull leaf.value leaf.referrer)) = false) :
    ∃ out, (apply fs ((new fs referrer).setRewriteAbsolutePaths flag) input).nodeAt path
        = some out ∧
      out.value = leaf.value ∧ out.referrer = leaf.referrer ∧ out.children = [] := by
  refine ⟨apply fs ((new fs referrer).setRewriteAbsolutePaths flag) leaf, ?_, ?_, ?_, ?_⟩
  · rw [nodeAt_apply, hAt]; rfl
  · rw [apply_value, applyNode_eq_self_of_skip _ _ _ (Or.inr (Or.inr (Or.inl hNoFile)))]
  · rw [apply_referrer, applyNode_eq_self_of_skip _ _ _ (Or.inr (Or.inr (Or.inl hNoFile)))]
  · rw [apply_children, hLeaf]; rfl

/-- Witness for C2: the `driver` leaf of `sampleDoc` (value `gdal`, no such file) is untouched
when rewriting for `/out/sub/new.earth`. -/
theorem nonPath_leaf_untouched_witness :
    ∃ out, (apply sampleFS ((new sampleFS "/out/sub/new.earth").setRewriteAbsolutePaths true)
        sampleDoc).nodeAt [0, 1] = some out ∧
      out.value = "gdal" ∧ out.referrer = "/maps/old.earth" ∧ out.children = [] :=
  nonPath_leaf_untouched sampleFS "/out/sub/new.earth" true sampleDoc [0, 1]
    (.mk "driver" "gdal" "/maps/old.earth" []) rfl rfl (by decide) (by decide)

/-- C3: for every leaf anywhere in the tree whose value is an absolute path (naming an existing
file or not), the rewriter built by the constructor alone (rewrite-absolute disabled, as
`serialize` uses it) leaves the leaf's value and referrer unchanged, for every new referrer. -/
theorem absolute_leaf_preserved (fs : FileSystem) (referrer : String)
    (input : Config) (path : List Nat) (leaf : Config)
    (hAt : input.nodeAt path = some leaf)
    (hLeaf : leaf.children = [])
    (hAbs : fs.isAbsolutePath leaf.value = true)
    (hFile : fs.fileExists
      (fs.convertFileNameToUnixStyle (fs.uriFull leaf.value leaf.referrer)) = true) :
    (new fs referrer).rewriteAbsolutePaths = false ∧
    ∃ out, (apply fs (new fs referrer) input).nodeAt path = some out ∧
      out.value = leaf.value ∧ out.referrer = leaf.referrer ∧ out.children = [] := by
  have hskip : applyNode fs (new fs referrer) leaf = leaf :=
    applyNode_eq_self_of_skip _ _ _ (Or.inr (Or.inr (Or.inr ⟨hAbs, rfl⟩)))
  refine ⟨rfl, apply fs (new fs referrer) leaf, ?_, ?_, ?_, ?_⟩
  · rw [nodeAt_apply, hAt]; rfl
  · rw [apply_value, hskip]
  · rw [apply_referrer, hskip]
  · rw [apply_children, hLeaf]; rfl

/-- Witness for C3: the `icon` leaf of `sampleDoc` holds the absolute path of an existing file
and is unchanged when rewriting for `/out/sub/new.earth`. -/
theorem absolute_leaf_preserved_witness :
    (new sampleFS "/out/sub/new.earth").rewriteAbsolutePaths = false ∧
    ∃ out, (apply sampleFS (new sampleFS "/out/sub/new.earth") sampleDoc).nodeAt [0, 2]
        = some out ∧
      out.value = "/maps/a.tif" ∧ out.referrer = "/maps/old.earth" ∧ out.children = [] :=
  absolute_leaf_preserved sampleFS "/out/sub/new.earth" sampleDoc [0, 2]
    (.mk "icon" "/maps/a.tif" "/maps/old.earth" []) rfl rfl (by decide) (by decide)

/-- C4 (counterexample): `dotLeafDoc`, read from `/maps/old.earth`, is rewritten for the same
location `/maps/old.earth`.  The leaf `./a.tif` names the existing `/maps/a.tif` and becomes
`a.tif`; its referrer is set to the new referrer, which is the referrer it already had.  So a
node has a changed value with an unchanged referrer. -/
theorem changed_value_unchanged_referrer :
    dotLeafDoc.nodeAt [0, 0] = some (Config.mk "url" "./a.tif" "/maps/old.earth" []) ∧
    (apply inPlaceFS ((new inPlaceFS "/maps/old.earth").setRewriteAbsolutePaths false)
        dotLeafDoc).nodeAt [0, 0] = some (Config.mk "url" "a.tif" "/maps/old.earth" []) ∧
    ¬ (∀ (path : List Nat) (before after : Config),
        dotLeafDoc.nodeAt path = some before →
        (apply inPlaceFS ((new inPlaceFS "/maps/old.earth").setRewriteAbsolutePaths false)
          dotLeafDoc).nodeAt path = some after →
        after.value ≠ before.value → after.referrer ≠ before.referrer) := by
  refine ⟨rfl, rfl, ?_⟩
  intro h
  exact h [0, 0] (Config.mk "url" "./a.tif" "/maps/old.earth" [])
    (Config.mk "url" "a.tif" "/maps/old.earth" []) rfl rfl (by decide) rfl

/-- C4 (amended): for every tree, new referrer and flag setting, every node of the rewritten
tree sits at the place of a node of the input and satisfies exactly one of (i) value and
referrer are both what they were, (ii) the value differs and the referrer is the new
referrer's absolute form.  A changed referrer comes with a changed value; a changed value
comes with the new referrer, and the referrer is then unchanged exactly when the node's
referrer already was the new referrer's absolute form. -/
theorem value_referrer_in_sync (fs : FileSystem) (referrer : String) (flag : Bool)
    (input : Config) (path : List Nat) (after : Config)
    (hAt : (apply fs ((new fs referrer).setRewriteAbsolutePaths flag) input).nodeAt path
      = some after) :
    ∃ before, input.nodeAt path = some before ∧
      ((after.value = before.value ∧ after.referrer = before.referrer) ∨
        (after.value ≠ before.value ∧
          after.referrer =
            ((new fs referrer).setRewriteAbsolutePaths flag).newReferrerAbsPath)) ∧
      ¬ ((after.value = before.value ∧ after.referrer = before.referrer) ∧
        (after.value ≠ before.value ∧
          after.referrer =
            ((new fs referrer).setRewriteAbsolutePaths flag).newReferrerAbsPath)) ∧
      (after.referrer ≠ before.referrer → after.value ≠ before.value) ∧
      (after.value ≠ before.value →
        after.referrer = fs.convertFileNameToUnixStyle (fs.getRealPath referrer)) ∧
      (after.value ≠ before.value →
        (after.referrer = before.referrer ↔
          before.referrer = fs.convertFileNameToUnixStyle (fs.getRealPath referrer))) := by
  rw [nodeAt_apply] at hAt
  cases hb : input.nodeAt path with
  | none => rw [hb] at hAt; cases hAt
  | some before =>
    rw [hb] at hAt
    have ha : after = apply fs ((new fs referrer).setRewriteAbsolutePaths flag) before :=
      (Option.some.inj hAt).symm
    refine ⟨before, rfl, ?_⟩
    subst ha
    rw [apply_value, apply_referrer]
    rcases applyNode_cases fs ((new fs referrer).setRewriteAbsolutePaths flag) before with
      h | ⟨hne, _, _, href⟩
    · rw [h]
      exact ⟨Or.inl ⟨rfl, rfl⟩, fun hh => hh.2.1 rfl, fun hh => absurd rfl hh,
        fun hh => absurd rfl hh, fun hh => absurd rfl hh⟩
    · refine ⟨Or.inr ⟨hne, href⟩, fun hh => hne hh.1.1, fun _ => hne, fun _ => href, fun _ => ?_⟩
      rw [href]
      exact ⟨fun e => e.symm, fun e => e.symm⟩

/-- Witness for C4 (amended): the `url` leaf of `sampleDoc` after rewriting for
`/out/sub/new.earth`: value and referrer both changed. -/
theorem value_referrer_in_sync_witness :
    ∃ before, sampleDoc.nodeAt [0, 0] = some before ∧
      before.value = "a.tif" ∧ before.referrer = "/maps/old.earth" ∧
      (apply sampleFS ((new sampleFS "/out/sub/new.earth").setRewriteAbsolutePaths false)
        sampleDoc).nodeAt [0, 0] =
        some (Config.mk "url" "../maps/a.tif" "/out/sub/new.earth" []) ∧
      ((Config.mk "url" "../maps/a.tif" "/out/sub/new.earth" []).referrer = before.referrer ↔
        before.referrer = "/out/sub/new.earth") := by
  obtain ⟨before, hb, _, _, _, _, h5⟩ :=
    value_referrer_in_sync sampleFS "/out/sub/new.earth" false sampleDoc [0, 0]
      (.mk "url" "../maps/a.tif" "/out/sub/new.earth" []) rfl
  have he : before = Config.mk "url" "a.tif" "/maps/old.earth" [] :=
    (Option.some.inj (hb.symm.trans rfl)).symm ▸ rfl
  refine ⟨before, hb, ?_, ?_, rfl, ?_⟩
  · rw [he]; rfl
  · rw [he]; rfl
  · exact h5 (by rw [he]; decide)

end RewritePaths

/-! ## Facts about the document-tree operations -/

namespace Config

@[simp] theorem key_mk (k v r : String) (cs : List Config) : (mk k v r cs).key = k := rfl

@[simp] theorem value_mk (k v r : String) (cs : List Config) : (mk k v r cs).value = v := rfl

@[simp] theorem referrer_mk (k v r : String) (cs : List Config) :
    (mk k v r cs).referrer = r := rfl

@[simp] theorem children_mk (k v r : String) (cs : List Config) :
    (mk k v r cs).children = cs := rfl

theorem setChildren_children (c : Config) : c.setChildren c.children = c := Config.eta c

/-- The first child named `k` is the head of the children named `k`. -/
theorem child_eq_head (c : Config) (k : String) :
    c.child k = ((c.childrenOf k).head?).getD emptyConfig := by
  unfold child childrenOf
  induction c.children with
  | nil => rfl
  | cons x xs ih =>
    by_cases h : x.key = k
    · simp [List.find?, List.filter, h]
    · simpa [List.find?, List.filter, h] using ih

theorem child_of_childrenOf_nil (c : Config) (k : String) (h : c.childrenOf k = []) :
    c.child k = emptyConfig := by
  rw [child_eq_head, h]; rfl

theorem child_of_childrenOf_cons (c : Config) (k : String) (x : Config) (xs : List Config)
    (h : c.childrenOf k = x :: xs) : c.child k = x := by
  rw [child_eq_head, h]; rfl

theorem foldl_remove (l : List Config) :
    ∀ c : Config, l.foldl (fun acc ch => acc.remove ch.key) c =
      c.setChildren (c.children.filter
        (fun x => !(l.any (fun ch => decide (x.key = ch.key))))) := by
  induction l with
  | nil => intro c; simp [setChildren_children]
  | cons y ys ih =>
    intro c
    rw [List.foldl_cons, ih]
    simp only [remove, setChildren, key_mk, value_mk, referrer_mk, children_mk,
      List.filter_filter, List.any_cons]
    congr 1
    apply List.filter_congr
    intro x _
    cases decide (x.key = y.key) <;> simp

theorem foldl_add (l : List Config) :
    ∀ c : Config, l.foldl (fun acc ch => acc.add ch) c = c.setChildren (c.children ++ l) := by
  induction l with
  | nil => intro c; simp [setChildren_children]
  | cons y ys ih =>
    intro c
    rw [List.foldl_cons, ih]
    simp [add, setChildren]

/-- The result of `merge` in closed form: the children of `c` whose key does not occur among
the children of `rhs`, followed by the children of `rhs`; key, value and referrer of `c`. -/
theorem merge_eq (c rhs : Config) :
    c.merge rhs = mk c.key c.value c.referrer
      (c.children.filter (fun x => !(rhs.children.any (fun ch => decide (x.key = ch.key))))
        ++ rhs.children) := by
  simp [merge, foldl_remove, foldl_add, setChildren]

/-- The result of `set` in closed form. -/
theorem set_eq (c : Config) (k v : String) :
    c.set k v = mk c.key c.value c.referrer
      (c.children.filter (fun ch => !decide (ch.key = k)) ++ [ofKeyValue k v]) := by
  simp [set, remove, addValue, add, setChildren]

end Config

/-! ## Facts about the layer loops -/

section SerializerFacts

variable {Opt Src Ext : Type}

theorem foldl_addImageLayer {α : Type} (f : α → Layer Opt Src) (l : List α) :
    ∀ m : Map Opt Src, l.foldl (fun m x => m.addImageLayer (f x)) m =
      { m with imageLayers := m.imageLayers ++ l.map f } := by
  induction l with
  | nil => intro m; simp
  | cons x xs ih =>
    intro m
    rw [List.foldl_cons, ih]
    simp [Map.addImageLayer]

theorem foldl_addElevationLayer {α : Type} (f : α → Layer Opt Src) (l : List α) :
    ∀ m : Map Opt Src, l.foldl (fun m x => m.addElevationLayer (f x)) m =
      { m with elevationLayers := m.elevationLayers ++ l.map f } := by
  induction l with
  | nil => intro m; simp
  | cons x xs ih =>
    intro m
    rw [List.foldl_cons, ih]
    simp [Map.addElevationLayer]

theorem foldl_addModelLayer {α : Type} (f : α → Layer Opt Src) (l : List α) :
    ∀ m : Map Opt Src, l.foldl (fun m x => m.addModelLayer (f x)) m =
      { m with modelLayers := m.modelLayers ++ l.map f } := by
  induction l with
  | nil => intro m; simp
  | cons x xs ih =>
    intro m
    rw [List.foldl_cons, ih]
    simp [Map.addModelLayer]

theorem foldl_addTerrainMaskLayer {α : Type} (f : α → Layer Opt Src) (l : List α) :
    ∀ m : Map Opt Src, l.foldl (fun m x => m.addTerrainMaskLayer (f x)) m =
      { m with terrainMaskLayer := ((l.map f).getLast?).orElse (fun _ => m.terrainMaskLayer) } := by
  induction l with
  | nil => intro m; simp
  | cons x xs ih =>
    intro m
    rw [List.foldl_cons, ih]
    cases xs with
    | nil => simp [Map.addTerrainMaskLayer]
    | cons y ys =>
      have h : ∀ z, ((f y :: List.map f ys).getLast?).orElse (fun _ => z) =
          (f y :: List.map f ys).getLast? := by
        intro z
        rw [List.getLast?_eq_getLast _ (List.cons_ne_nil _ _)]
        rfl
      simp only [List.map_cons, List.getLast?_cons_cons, h, Map.addTerrainMaskLayer]

/-- The layer loops in closed form: each list is the image of the matching sections, in
document order; the elevation list takes the `elevation` sections before the `heightfield`
ones; the mask is the layer of the last `mask` section. -/
theorem deserializeLayers_new (c : Collaborators Opt Src Ext) (conf : Config)
    (mapOptions : Config) :
    deserializeLayers c conf (Map.new mapOptions) =
      { initialMapOptions := mapOptions
        imageLayers := (conf.childrenOf "image").map (imageLayerOf c)
        elevationLayers := (conf.childrenOf "elevation").map (elevationLayerOf c) ++
          (conf.childrenOf "heightfield").map (elevationLayerOf c)
        modelLayers := (conf.childrenOf "model").map (modelLayerOf c)
        terrainMaskLayer := ((conf.childrenOf "mask").map (maskLayerOf c)).getLast? } := by
  simp [deserializeLayers, foldl_addImageLayer, foldl_addElevationLayer, foldl_addModelLayer,
    foldl_addTerrainMaskLayer, Map.new]

theorem foldl_addExtension_fields (c : Collaborators Opt Src Ext) (l : List Config) :
    ∀ node : MapNode Opt Src Ext,
      (l.foldl (fun node i =>
        match c.createExtension i.key i with
        | some extension => node.addExtension extension
        | none => node) node) =
      { node with extensions := node.extensions ++
          l.filterMap (fun i => c.createExtension i.key i) } := by
  induction l with
  | nil => intro node; simp
  | cons x xs ih =>
    intro node
    rw [List.foldl_cons, ih]
    cases h : c.createExtension x.key x with
    | none => simp [h]
    | some e => simp [h, MapNode.addExtension]

/-- The wrapper built by `installExtensions`, in closed form. -/
theorem installExtensions_eq (c : Collaborators Opt Src Ext) (ext : Config)
    (mapNode : MapNode Opt Src Ext) :
    installExtensions c ext mapNode =
      if ext.empty = true then mapNode
      else { mapNode with
              externalConfig := ext
              extensions := mapNode.extensions ++
                ext.children.filterMap (fun i => c.createExtension i.key i) } := by
  unfold installExtensions
  by_cases h : ext.empty = true
  · simp [h]
  · simp [h, foldl_addExtension_fields]

/-- The model of the wrapper `deserialize` returns. -/
theorem deserialize_map (c : Collaborators Opt Src Ext) (fs : FileSystem) (conf : Config)
    (referrer : String) (paths : List String) :
    (deserialize c fs conf referrer paths).1.map =
      some (deserializeLayers c conf (Map.new (deserializeMapOptions conf))) := by
  simp only [deserialize, installExtensions_eq]
  split_ifs <;> rfl

/-! ## Claims about the deserializer -/

/-- C5: for every document, the elevation-layer list built by `deserialize` is the layers of all
`elevation` children in document order followed by the layers of all `heightfield` children in
document order; its length is the number of `elevation` sections plus the number of
`heightfield` sections; and whenever the document has exactly two `elevation` sections and one
`heightfield` section, wherever they stand among the children, the list has the two
`elevation` layers before the `heightfield` one. -/
theorem elevation_dual_tag_merge (c : Collaborators Opt Src Ext) (fs : FileSystem)
    (conf : Config) (referrer : String) (paths : List String) :
    ∃ map, (deserialize c fs conf referrer paths).1.map = some map ∧
      map.elevationLayers =
        (conf.childrenOf "elevation").map (elevationLayerOf c) ++
          (conf.childrenOf "heightfield").map (elevationLayerOf c) ∧
      map.elevationLayers.length =
        (conf.childrenOf "elevation").length + (conf.childrenOf "heightfield").length ∧
      ∀ e1 e2 h, conf.childrenOf "elevation" = [e1, e2] → conf.childrenOf "heightfield" = [h] →
        map.elevationLayers =
          [elevationLayerOf c e1, elevationLayerOf c e2, elevationLayerOf c h] := by
  refine ⟨_, deserialize_map c fs conf referrer paths, ?_, ?_, ?_⟩
  · rw [deserializeLayers_new]
  · rw [deserializeLayers_new]; simp
  · intro e1 e2 h h1 h2
    rw [deserializeLayers_new]
    simp [h1, h2]

/-- Witness for C5: the document `heightfield h1` between `elevation e1` and `elevation e2`
gives the elevation layers `e1`, `e2`, `h1` in this order. -/
theorem elevation_dual_tag_merge_witness :
    ∃ map, (deserialize sampleCollab sampleFS interleavedDoc "/maps/old.earth" []).1.map
        = some map ∧
      map.elevationLayers.map (fun l => l.name) = ["e1", "e2", "h1"] ∧
      map.elevationLayers.length = 3 := by
  obtain ⟨map, hmap, _, _, h3⟩ :=
    elevation_dual_tag_merge sampleCollab sampleFS interleavedDoc "/maps/old.earth" []
  refine ⟨map, hmap, ?_, ?_⟩
  · rw [h3 (sampleSection "elevation" "e1" "gdal") (sampleSection "elevation" "e2" "gdal")
      (sampleSection "heightfield" "h1" "tms") rfl rfl]
    rfl
  · rw [h3 (sampleSection "elevation" "e1" "gdal") (sampleSection "elevation" "e2" "gdal")
      (sampleSection "heightfield" "h1" "tms") rfl rfl]
    rfl

/-- C7 (counterexample): the document with an `external` section and the document with the
same section tagged `extensions` store different subtrees: the stored subtree keeps the key of
the section it was read from. -/
theorem stored_extension_subtrees_differ :
    (deserialize sampleCollab sampleFS externalDoc "" []).1.externalConfig ≠
      (deserialize sampleCollab sampleFS extensionsDoc "" []).1.externalConfig ∧
    (deserialize sampleCollab sampleFS externalDoc "" []).1.externalConfig.key = "external" ∧
    (deserialize sampleCollab sampleFS extensionsDoc "" []).1.externalConfig.key
      = "extensions" := by
  refine ⟨?_, by decide, by decide⟩
  intro h
  have h2 := congrArg Config.key h
  revert h2
  decide

/-- C7 (amended): for every extension content (value, referrer, children), a document whose
only extension section is `external` with that content and a document whose only
extension section is `extensions` with that content deserialize to wrappers whose stored extension
subtrees have the same value, referrer and children; they differ in their key only, which is
`external` for the first and `extensions` for the second. -/
theorem extension_fallback (c : Collaborators Opt Src Ext) (fs : FileSystem)
    (conf1 conf2 : Config) (referrer1 referrer2 : String) (paths1 paths2 : List String)
    (v r : String) (cs : List Config)
    (h1 : conf1.childrenOf "external" = [Config.mk "external" v r cs])
    (h2 : conf2.childrenOf "external" = [])
    (h3 : conf2.childrenOf "extensions" = [Config.mk "extensions" v r cs]) :
    (deserialize c fs conf1 referrer1 paths1).1.externalConfig = Config.mk "external" v r cs ∧
    (deserialize c fs conf2 referrer2 paths2).1.externalConfig = Config.mk "extensions" v r cs ∧
    (deserialize c fs conf1 referrer1 paths1).1.externalConfig.value =
      (deserialize c fs conf2 referrer2 paths2).1.externalConfig.value ∧
    (deserialize c fs conf1 referrer1 paths1).1.externalConfig.referrer =
      (deserialize c fs conf2 referrer2 paths2).1.externalConfig.referrer ∧
    (deserialize c fs conf1 referrer1 paths1).1.externalConfig.children =
      (deserialize c fs conf2 referrer2 paths2).1.externalConfig.children := by
  have e1 : selectExtensions conf1 = Config.mk "external" v r cs := by
    unfold selectExtensions
    rw [Config.child_of_childrenOf_cons _ _ _ _ h1]
    rfl
  have e2 : selectExtensions conf2 = Config.mk "extensions" v r cs := by
    unfold selectExtensions
    rw [Config.child_of_childrenOf_nil _ _ h2, Config.child_of_childrenOf_cons _ _ _ _ h3]
    rfl
  have n1 : (Config.mk "external" v r cs).empty = false := by
    simp [Config.empty]
  have n2 : (Config.mk "extensions" v r cs).empty = false := by
    simp [Config.empty]
  have d1 : (deserialize c fs conf1 referrer1 paths1).1 =
      { (MapNode.new (deserializeLayers c conf1 (Map.new (deserializeMapOptions conf1)))
          (conf1.child "options") : MapNode Opt Src Ext) with
        externalConfig := Config.mk "external" v r cs
        extensions := [] ++ cs.filterMap (fun i => c.createExtension i.key i) } := by
    simp only [deserialize, installExtensions_eq, e1, n1]
    rfl
  have d2 : (deserialize c fs conf2 referrer2 paths2).1 =
      { (MapNode.new (deserializeLayers c conf2 (Map.new (deserializeMapOptions conf2)))
          (conf2.child "options") : MapNode Opt Src Ext) with
        externalConfig := Config.mk "extensions" v r cs
        extensions := [] ++ cs.filterMap (fun i => c.createExtension i.key i) } := by
    simp only [deserialize, installExtensions_eq, e2, n2]
    rfl
  rw [d1, d2]
  exact ⟨rfl, rfl, rfl, rfl, rfl⟩

/-- Witness for C7 (amended): `externalDoc` and `extensionsDoc`. -/
theorem extension_fallback_witness :
    (deserialize sampleCollab sampleFS externalDoc "" []).1.externalConfig =
      Config.mk "external" "" "" [sampleSection "viewpoints" "v" "none"] ∧
    (deserialize sampleCollab sampleFS extensionsDoc "" []).1.externalConfig =
      Config.mk "extensions" "" "" [sampleSection "viewpoints" "v" "none"] ∧
    (deserialize sampleCollab sampleFS externalDoc "" []).1.externalConfig.value =
      (deserialize sampleCollab sampleFS extensionsDoc "" []).1.externalConfig.value ∧
    (deserialize sampleCollab sampleFS externalDoc "" []).1.externalConfig.referrer =
      (deserialize sampleCollab sampleFS extensionsDoc "" []).1.externalConfig.referrer ∧
    (deserialize sampleCollab sampleFS externalDoc "" []).1.externalConfig.children =
      (deserialize sampleCollab sampleFS extensionsDoc "" []).1.externalConfig.children :=
  extension_fallback sampleCollab sampleFS externalDoc extensionsDoc "" "" [] []
    "" "" [sampleSection "viewpoints" "v" "none"] rfl rfl rfl

theorem eraseReferrersList_eq_map (l : List Config) :
    Config.eraseReferrersList l = l.map Config.eraseReferrers := by
  induction l with
  | nil => rfl
  | cons x xs ih => simp [Config.eraseReferrersList, ih]

theorem eraseReferrersList_optionalLeaf (key : String) (value : Option String)
    (r1 r2 : String) :
    Config.eraseReferrersList (optionalLeaf key value r1) =
      Config.eraseReferrersList (optionalLeaf key value r2) := by
  cases value <;> rfl

/-- The legacy fragment in closed form. -/
theorem legacyFragment_children (conf : Config) :
    (legacyFragment conf).children =
      (if conf.hasValue "name" = true then [Config.ofKeyValue "name" (conf.valueOf "name")]
        else []) ++
      (if conf.hasValue "type" = true then [Config.ofKeyValue "type" (conf.valueOf "type")]
        else []) := by
  unfold legacyFragment
  by_cases h1 : conf.hasValue "name" = true <;> by_cases h2 : conf.hasValue "type" = true <;>
    simp [h1, h2, Config.addValue, Config.add, Config.setChildren, Config.emptyConfig]

theorem find_none_of_keys (l : List Config) (k : String) (h : ∀ x ∈ l, x.key ≠ k) :
    l.find? (fun ch => decide (ch.key = k)) = none := by
  rw [List.find?_eq_none]
  intro x hx
  simpa using h x hx

theorem legacyStyleDoc_valueOf_name (k v r : String) (name type : Option String)
    (rTop ov orf : String) (pre post rest : List Config)
    (hrest : ∀ x ∈ rest, x.key ≠ "name" ∧ x.key ≠ "type") :
    (legacyStyleDoc k v r name type rTop ov orf pre post rest).valueOf "name"
      = name.getD "" := by
  have hr := find_none_of_keys rest "name" (fun x hx => (hrest x hx).1)
  cases name <;> cases type <;>
    simp [legacyStyleDoc, optionalLeaf, Config.valueOf, Config.child, List.find?, hr,
      Config.emptyConfig]

theorem legacyStyleDoc_valueOf_type (k v r : String) (name type : Option String)
    (rTop ov orf : String) (pre post rest : List Config)
    (hrest : ∀ x ∈ rest, x.key ≠ "name" ∧ x.key ≠ "type") :
    (legacyStyleDoc k v r name type rTop ov orf pre post rest).valueOf "type"
      = type.getD "" := by
  have hr := find_none_of_keys rest "type" (fun x hx => (hrest x hx).2)
  cases name <;> cases type <;>
    simp [legacyStyleDoc, optionalLeaf, Config.valueOf, Config.child, List.find?, hr,
      Config.emptyConfig]

theorem legacyStyleDoc_child_options (k v r : String) (name type : Option String)
    (rTop ov orf : String) (pre post rest : List Config) :
    (legacyStyleDoc k v r name type rTop ov orf pre post rest).child "options"
      = Config.mk "options" ov orf (pre ++ post) := by
  cases name <;> cases type <;>
    simp [legacyStyleDoc, optionalLeaf, Config.child, List.find?]

theorem hasValue_eq_isSome (conf : Config) (key : String) (value : Option String)
    (hv : value ≠ some "") (h : conf.valueOf key = value.getD "") :
    conf.hasValue key = value.isSome := by
  unfold Config.hasValue
  rw [h]
  cases value with
  | none => simp
  | some x =>
    have : x ≠ "" := fun hx => hv (by rw [hx])
    simp [this]

/-- The legacy fragment of an old-style document holds exactly the values that are present. -/
theorem legacyFragment_legacyStyleDoc (k v r : String) (name type : Option String)
    (rTop ov orf : String) (pre post rest : List Config)
    (hn : name ≠ some "") (ht : type ≠ some "")
    (hrest : ∀ x ∈ rest, x.key ≠ "name" ∧ x.key ≠ "type") :
    (legacyFragment (legacyStyleDoc k v r name type rTop ov orf pre post rest)).children =
      optionalLeaf "name" name "" ++ optionalLeaf "type" type "" := by
  rw [legacyFragment_children,
    hasValue_eq_isSome _ "name" name hn (legacyStyleDoc_valueOf_name _ _ _ _ _ _ _ _ _ _ _ hrest),
    hasValue_eq_isSome _ "type" type ht (legacyStyleDoc_valueOf_type _ _ _ _ _ _ _ _ _ _ _ hrest),
    legacyStyleDoc_valueOf_name _ _ _ _ _ _ _ _ _ _ _ hrest,
    legacyStyleDoc_valueOf_type _ _ _ _ _ _ _ _ _ _ _ hrest]
  cases name <;> cases type <;> simp [optionalLeaf, Config.ofKeyValue]

/-- The map options of an old-style document: the `options` children followed by the fresh
`name` and `type` leaves. -/
theorem deserializeMapOptions_legacyStyleDoc (k v r : String) (name type : Option String)
    (rTop ov orf : String) (pre post rest : List Config)
    (hn : name ≠ some "") (ht : type ≠ some "")
    (hpre : ∀ x ∈ pre, x.key ≠ "name" ∧ x.key ≠ "type")
    (hpost : ∀ x ∈ post, x.key ≠ "name" ∧ x.key ≠ "type")
    (hrest : ∀ x ∈ rest, x.key ≠ "name" ∧ x.key ≠ "type") :
    deserializeMapOptions (legacyStyleDoc k v r name type rTop ov orf pre post rest) =
      Config.mk "options" ov orf
        (pre ++ post ++ (optionalLeaf "name" name "" ++ optionalLeaf "type" type "")) := by
  unfold deserializeMapOptions
  rw [hasValue_eq_isSome _ "name" name hn (legacyStyleDoc_valueOf_name _ _ _ _ _ _ _ _ _ _ _ hrest),
    hasValue_eq_isSome _ "type" type ht (legacyStyleDoc_valueOf_type _ _ _ _ _ _ _ _ _ _ _ hrest),
    legacyStyleDoc_child_options]
  by_cases hb : (name.isSome || type.isSome) = true
  · rw [if_pos hb, Config.merge_eq,
      legacyFragment_legacyStyleDoc _ _ _ _ _ _ _ _ _ _ _ hn ht hrest]
    have hkeep : (pre ++ post).filter (fun x =>
        !((optionalLeaf "name" name "" ++ optionalLeaf "type" type "").any
          (fun ch => decide (x.key = ch.key)))) = pre ++ post := by
      rw [List.filter_eq_self]
      intro x hx
      have hx2 : x.key ≠ "name" ∧ x.key ≠ "type" := by
        rcases List.mem_append.mp hx with h | h
        · exact hpre x h
        · exact hpost x h
      cases name <;> cases type <;> simp [optionalLeaf, hx2.1, hx2.2]
    simp only [Config.children_mk, Config.key_mk, Config.value_mk, Config.referrer_mk, hkeep]
  · rw [if_neg hb]
    have hnone : name = none ∧ type = none := by
      cases name <;> cases type <;> simp at hb ⊢
    rw [hnone.1, hnone.2]
    simp [optionalLeaf]

/-- The map options of a new-style document: the `options` section as it stands. -/
theorem deserializeMapOptions_nestedStyleDoc (k v r : String) (name type : Option String)
    (rNested ov orf : String) (pre post rest : List Config)
    (hrest : ∀ x ∈ rest, x.key ≠ "name" ∧ x.key ≠ "type") :
    deserializeMapOptions (nestedStyleDoc k v r name type rNested ov orf pre post rest) =
      Config.mk "options" ov orf
        (pre ++ (optionalLeaf "name" name rNested ++ optionalLeaf "type" type rNested)
          ++ post) := by
  have hr1 := find_none_of_keys rest "name" (fun x hx => (hrest x hx).1)
  have hr2 := find_none_of_keys rest "type" (fun x hx => (hrest x hx).2)
  simp [deserializeMapOptions, nestedStyleDoc, Config.hasValue, Config.valueOf, Config.child,
    List.find?, hr1, hr2, Config.emptyConfig]

theorem legacyStyleDocNoOptions_valueOf_name (k v r : String) (name type : Option String)
    (rTop : String) (rest : List Config)
    (hrest : ∀ x ∈ rest, x.key ≠ "name" ∧ x.key ≠ "type" ∧ x.key ≠ "options") :
    (legacyStyleDocNoOptions k v r name type rTop rest).valueOf "name" = name.getD "" := by
  have hr := find_none_of_keys rest "name" (fun x hx => (hrest x hx).1)
  cases name <;> cases type <;>
    simp [legacyStyleDocNoOptions, optionalLeaf, Config.valueOf, Config.child, List.find?, hr,
      Config.emptyConfig]

theorem legacyStyleDocNoOptions_valueOf_type (k v r : String) (name type : Option String)
    (rTop : String) (rest : List Config)
    (hrest : ∀ x ∈ rest, x.key ≠ "name" ∧ x.key ≠ "type" ∧ x.key ≠ "options") :
    (legacyStyleDocNoOptions k v r name type rTop rest).valueOf "type" = type.getD "" := by
  have hr := find_none_of_keys rest "type" (fun x hx => (hrest x hx).2.1)
  cases name <;> cases type <;>
    simp [legacyStyleDocNoOptions, optionalLeaf, Config.valueOf, Config.child, List.find?, hr,
      Config.emptyConfig]

theorem legacyStyleDocNoOptions_child_options (k v r : String) (name type : Option String)
    (rTop : String) (rest : List Config)
    (hrest : ∀ x ∈ rest, x.key ≠ "name" ∧ x.key ≠ "type" ∧ x.key ≠ "options") :
    (legacyStyleDocNoOptions k v r name type rTop rest).child "options"
      = Config.emptyConfig := by
  have hr := find_none_of_keys rest "options" (fun x hx => (hrest x hx).2.2)
  cases name <;> cases type <;>
    simp [legacyStyleDocNoOptions, optionalLeaf, Config.child, List.find?, hr]

/-- The map options of an old-style document without `options` section: the empty node
holding the fresh `name` and `type` leaves. -/
theorem deserializeMapOptions_legacyStyleDocNoOptions (k v r : String)
    (name type : Option String) (rTop : String) (rest : List Config)
    (hn : name ≠ some "") (ht : type ≠ some "")
    (hrest : ∀ x ∈ rest, x.key ≠ "name" ∧ x.key ≠ "type" ∧ x.key ≠ "options") :
    deserializeMapOptions (legacyStyleDocNoOptions k v r name type rTop rest) =
      Config.mk "" "" "" (optionalLeaf "name" name "" ++ optionalLeaf "type" type "") := by
  have hvn := legacyStyleDocNoOptions_valueOf_name k v r name type rTop rest hrest
  have hvt := legacyStyleDocNoOptions_valueOf_type k v r name type rTop rest hrest
  have hfrag : (legacyFragment (legacyStyleDocNoOptions k v r name type rTop rest)).children =
      optionalLeaf "name" name "" ++ optionalLeaf "type" type "" := by
    rw [legacyFragment_children, hasValue_eq_isSome _ "name" name hn hvn,
      hasValue_eq_isSome _ "type" type ht hvt, hvn, hvt]
    cases name <;> cases type <;> simp [optionalLeaf, Config.ofKeyValue]
  unfold deserializeMapOptions
  rw [hasValue_eq_isSome _ "name" name hn hvn, hasValue_eq_isSome _ "type" type ht hvt,
    legacyStyleDocNoOptions_child_options k v r name type rTop rest hrest]
  by_cases hb : (name.isSome || type.isSome) = true
  · rw [if_pos hb, Config.merge_eq, hfrag]
    simp [Config.emptyConfig]
  · rw [if_neg hb]
    have hnone : name = none ∧ type = none := by
      cases name <;> cases type <;> simp at hb ⊢
    rw [hnone.1, hnone.2]
    simp [optionalLeaf, Config.emptyConfig]

theorem mapOptionsOf_deserialize (c : Collaborators Opt Src Ext) (fs : FileSystem)
    (conf : Config) (referrer : String) (paths : List String) :
    mapOptionsOf (deserialize c fs conf referrer paths).1 = deserializeMapOptions conf := by
  unfold mapOptionsOf
  rw [deserialize_map, deserializeLayers_new]

/-- C8 (counterexample): with an empty `name` value the two documents do not deserialize to the
same option contents.  The old-style document carries the top-level value `name = ""`, which
`hasValue` treats as absent, so nothing is copied and the map options have no child; the
otherwise identical new-style document carries `name = ""` inside `options`, and its map
options keep that child. -/
theorem legacy_empty_name_differs :
    (legacyStyleDoc "map" "" "" (some "") none "" "" "" [] [] []).children =
      [Config.mk "name" "" "" [], Config.mk "options" "" "" []] ∧
    (nestedStyleDoc "map" "" "" (some "") none "" "" "" [] [] []).children =
      [Config.mk "options" "" "" [Config.mk "name" "" "" []]] ∧
    (mapOptionsOf (deserialize sampleCollab sampleFS
      (legacyStyleDoc "map" "" "" (some "") none "" "" "" [] [] []) "" []).1).children = [] ∧
    (mapOptionsOf (deserialize sampleCollab sampleFS
      (nestedStyleDoc "map" "" "" (some "") none "" "" "" [] [] []) "" []).1).children =
        [Config.mk "name" "" "" []] ∧
    Config.eraseReferrers (mapOptionsOf (deserialize sampleCollab sampleFS
      (legacyStyleDoc "map" "" "" (some "") none "" "" "" [] [] []) "" []).1) ≠
    Config.eraseReferrers (mapOptionsOf (deserialize sampleCollab sampleFS
      (nestedStyleDoc "map" "" "" (some "") none "" "" "" [] [] []) "" []).1) := by
  refine ⟨rfl, rfl, rfl, rfl, ?_⟩
  intro h
  have h2 := congrArg (fun d : Config => d.children.length) h
  revert h2
  decide

/-- C8 (amended): for every optional non-empty `name` and `type` value (an empty value counts as
absent), the old-style document carrying them as top-level values (and not inside `options`)
and the otherwise identical document carrying them nested inside `options` deserialize to map
options with the same contents.  When the old-style document has an `options` section: same
key, value and referrer, and the same children up to their order and up to the referrers of
the `name`/`type` leaves (exactly the same contents when the nested values stand last).  When
it has no `options` section: the same children up to the referrers of the `name`/`type`
leaves, the old-style map options being built on the empty node (empty key) and the new-style
ones being the `options` section.  For every document the legacy fragment holds `name` only
when the top-level name is present and `type` only when the top-level type is present, and
without top-level `name` and `type` values the map options are the `options` child itself:
nothing is merged. -/
theorem legacy_equivalence (c : Collaborators Opt Src Ext) (fs : FileSystem)
    (referrer : String) (paths : List String)
    (k v r : String) (name type : Option String) (rTop rNested ov orf : String)
    (pre post rest : List Config)
    (hn : name ≠ some "") (ht : type ≠ some "")
    (hpre : ∀ x ∈ pre, x.key ≠ "name" ∧ x.key ≠ "type")
    (hpost : ∀ x ∈ post, x.key ≠ "name" ∧ x.key ≠ "type")
    (hrest : ∀ x ∈ rest, x.key ≠ "name" ∧ x.key ≠ "type") :
    (mapOptionsOf (deserialize c fs
        (legacyStyleDoc k v r name type rTop ov orf pre post rest) referrer paths).1).key =
      (mapOptionsOf (deserialize c fs
        (nestedStyleDoc k v r name type rNested ov orf pre post rest) referrer paths).1).key ∧
    (mapOptionsOf (deserialize c fs
        (legacyStyleDoc k v r name type rTop ov orf pre post rest) referrer paths).1).value =
      (mapOptionsOf (deserialize c fs
        (nestedStyleDoc k v r name type rNested ov orf pre post rest) referrer paths).1).value ∧
    (mapOptionsOf (deserialize c fs
        (legacyStyleDoc k v r name type rTop ov orf pre post rest) referrer paths).1).referrer =
      (mapOptionsOf (deserialize c fs
        (nestedStyleDoc k v r name type rNested ov orf pre post rest) referrer paths).1).referrer ∧
    List.Perm
      (Config.eraseReferrersList (mapOptionsOf (deserialize c fs
        (legacyStyleDoc k v r name type rTop ov orf pre post rest) referrer paths).1).children)
      (Config.eraseReferrersList (mapOptionsOf (deserialize c fs
        (nestedStyleDoc k v r name type rNested ov orf pre post rest) referrer paths).1).children) ∧
    (post = [] →
      Config.eraseReferrers (mapOptionsOf (deserialize c fs
        (legacyStyleDoc k v r name type rTop ov orf pre post rest) referrer paths).1) =
      Config.eraseReferrers (mapOptionsOf (deserialize c fs
        (nestedStyleDoc k v r name type rNested ov orf pre post rest) referrer paths).1)) ∧
    (legacyFragment (legacyStyleDoc k v r name type rTop ov orf pre post rest)).children =
      optionalLeaf "name" name "" ++ optionalLeaf "type" type "" ∧
    (∀ conf : Config, conf.hasValue "name" = false → conf.hasValue "type" = false →
      mapOptionsOf (deserialize c fs conf referrer paths).1 = conf.child "options") ∧
    (∀ conf : Config, (legacyFragment conf).children =
      (if conf.hasValue "name" = true then [Config.ofKeyValue "name" (conf.valueOf "name")]
        else []) ++
      (if conf.hasValue "type" = true then [Config.ofKeyValue "type" (conf.valueOf "type")]
        else [])) ∧
    ((∀ x ∈ rest, x.key ≠ "options") →
      mapOptionsOf (deserialize c fs
          (legacyStyleDocNoOptions k v r name type rTop rest) referrer paths).1 =
        Config.mk "" "" "" (optionalLeaf "name" name "" ++ optionalLeaf "type" type "") ∧
      mapOptionsOf (deserialize c fs
          (nestedStyleDoc k v r name type rNested ov orf [] [] rest) referrer paths).1 =
        Config.mk "options" ov orf
          (optionalLeaf "name" name rNested ++ optionalLeaf "type" type rNested) ∧
      Config.eraseReferrersList (mapOptionsOf (deserialize c fs
          (legacyStyleDocNoOptions k v r name type rTop rest) referrer paths).1).children =
        Config.eraseReferrersList (mapOptionsOf (deserialize c fs
          (nestedStyleDoc k v r name type rNested ov orf [] [] rest) referrer paths).1).children)
    := by
  have hleaves0 : Config.eraseReferrersList
        (optionalLeaf "name" name "" ++ optionalLeaf "type" type "") =
      Config.eraseReferrersList
        (optionalLeaf "name" name rNested ++ optionalLeaf "type" type rNested) := by
    cases name <;> cases type <;> rfl
  have hbare : (∀ x ∈ rest, x.key ≠ "options") →
      mapOptionsOf (deserialize c fs
          (legacyStyleDocNoOptions k v r name type rTop rest) referrer paths).1 =
        Config.mk "" "" "" (optionalLeaf "name" name "" ++ optionalLeaf "type" type "") ∧
      mapOptionsOf (deserialize c fs
          (nestedStyleDoc k v r name type rNested ov orf [] [] rest) referrer paths).1 =
        Config.mk "options" ov orf
          (optionalLeaf "name" name rNested ++ optionalLeaf "type" type rNested) ∧
      Config.eraseReferrersList (mapOptionsOf (deserialize c fs
          (legacyStyleDocNoOptions k v r name type rTop rest) referrer paths).1).children =
        Config.eraseReferrersList (mapOptionsOf (deserialize c fs
          (nestedStyleDoc k v r name type rNested ov orf [] [] rest) referrer paths).1).children
      := by
    intro hopt
    have hrest3 : ∀ x ∈ rest, x.key ≠ "name" ∧ x.key ≠ "type" ∧ x.key ≠ "options" :=
      fun x hx => ⟨(hrest x hx).1, (hrest x hx).2, hopt x hx⟩
    have hA := deserializeMapOptions_legacyStyleDocNoOptions k v r name type rTop rest hn ht
      hrest3
    have hB := deserializeMapOptions_nestedStyleDoc k v r name type rNested ov orf [] [] rest
      hrest
    simp only [List.nil_append, List.append_nil] at hB
    rw [mapOptionsOf_deserialize, mapOptionsOf_deserialize, hA, hB]
    exact ⟨rfl, rfl, hleaves0⟩
  rw [mapOptionsOf_deserialize, mapOptionsOf_deserialize,
    deserializeMapOptions_legacyStyleDoc _ _ _ _ _ _ _ _ _ _ _ hn ht hpre hpost hrest,
    deserializeMapOptions_nestedStyleDoc _ _ _ _ _ _ _ _ _ _ _ hrest]
  have hleaves : Config.eraseReferrersList
        (optionalLeaf "name" name "" ++ optionalLeaf "type" type "") =
      Config.eraseReferrersList
        (optionalLeaf "name" name rNested ++ optionalLeaf "type" type rNested) := by
    cases name <;> cases type <;> rfl
  refine ⟨rfl, rfl, rfl, ?_, ?_, ?_, ?_, fun conf => legacyFragment_children conf, hbare⟩
  · simp only [Config.children_mk]
    rw [eraseReferrersList_eq_map] at hleaves ⊢
    rw [eraseReferrersList_eq_map] at hleaves ⊢
    simp only [List.map_append] at hleaves ⊢
    rw [hleaves, List.append_assoc, List.append_assoc]
    exact List.Perm.append_left _ List.perm_append_comm
  · intro hp
    subst hp
    rw [eraseReferrersList_eq_map, eraseReferrersList_eq_map] at hleaves
    simp only [Config.eraseReferrers, eraseReferrersList_eq_map, List.append_nil,
      List.map_append] at hleaves ⊢
    rw [hleaves]
  · exact legacyFragment_legacyStyleDoc _ _ _ _ _ _ _ _ _ _ _ hn ht hrest
  · intro conf h1 h2
    rw [mapOptionsOf_deserialize]
    simp [deserializeMapOptions, h1, h2]

/-- Witness for C8 (amended): name `world` and type `geocentric`, with an `options` section
holding a cache setting and one image section, and the same without `options` section. -/
theorem legacy_equivalence_witness :
    Config.eraseReferrers (mapOptionsOf (deserialize sampleCollab sampleFS
        (legacyStyleDoc "map" "" "/maps/old.earth" (some "world") (some "geocentric")
          "/maps/old.earth" "" "/maps/old.earth"
          [Config.mk "cache_only" "true" "/maps/old.earth" []] []
          [sampleSection "image" "base" "tms"]) "/maps/old.earth" []).1) =
      Config.eraseReferrers (mapOptionsOf (deserialize sampleCollab sampleFS
        (nestedStyleDoc "map" "" "/maps/old.earth" (some "world") (some "geocentric")
          "/maps/old.earth" "" "/maps/old.earth"
          [Config.mk "cache_only" "true" "/maps/old.earth" []] []
          [sampleSection "image" "base" "tms"]) "/maps/old.earth" []).1) ∧
    mapOptionsOf (deserialize sampleCollab sampleFS
        (legacyStyleDocNoOptions "map" "" "/maps/old.earth" (some "world") (some "geocentric")
          "/maps/old.earth" [sampleSection "image" "base" "tms"]) "/maps/old.earth" []).1 =
      Config.mk "" "" "" [Config.mk "name" "world" "" [], Config.mk "type" "geocentric" "" []] :=
  have h := legacy_equivalence sampleCollab sampleFS "/maps/old.earth" []
    "map" "" "/maps/old.earth" (some "world") (some "geocentric")
    "/maps/old.earth" "/maps/old.earth" "" "/maps/old.earth"
    [Config.mk "cache_only" "true" "/maps/old.earth" []] []
    [sampleSection "image" "base" "tms"]
    (by decide) (by decide)
    (by intro x hx; simp at hx; subst hx; decide)
    (by intro x hx; simp at hx)
    (by intro x hx; simp at hx; subst hx; decide)
  ⟨h.2.2.2.2.1 rfl,
    (h.2.2.2.2.2.2.2.2 (by intro x hx; simp at hx; subst hx; decide)).1⟩

/-! ## Facts about the serializer -/

theorem foldl_addKeyed {α : Type} (key : String) (f : α → Config) (l : List α) :
    ∀ conf : Config, l.foldl (fun conf x => conf.addKeyed key (f x)) conf =
      conf.setChildren (conf.children ++ l.map (fun x => (f x).setKey key)) := by
  induction l with
  | nil => intro conf; simp [Config.setChildren_children]
  | cons x xs ih =>
    intro conf
    rw [List.foldl_cons, ih]
    simp [Config.addKeyed, Config.add, Config.setChildren]

theorem serializeHeader_eq :
    serializeHeader = Config.mk "map" "" "" [Config.ofKeyValue "version" "2"] := rfl

/-- The emitted document in closed form: version marker, options, image sections,
elevation sections, model sections, extension subtree. -/
theorem serializeSections_eq (c : Collaborators Opt Src Ext) (input : MapNode Opt Src Ext)
    (map : Map Opt Src) :
    serializeSections c input map serializeHeader =
      Config.mk "map" "" ""
        ([Config.ofKeyValue "version" "2",
          (map.initialMapOptions.merge input.mapNodeOptions).setKey "options"] ++
          map.imageLayers.map (fun l => (layerSection c .image l).setKey "image") ++
          map.elevationLayers.map (fun l => (layerSection c .elevation l).setKey "elevation") ++
          map.modelLayers.map (fun l => (layerSection c .model l).setKey "model") ++
          extensionsPart input.externalConfig) := by
  unfold serializeSections extensionsPart
  simp only [foldl_addKeyed, serializeHeader_eq]
  by_cases h : input.externalConfig.empty = true
  · simp [h, Config.addKeyed, Config.add, Config.setChildren]
  · simp [h, Config.addKeyed, Config.add, Config.setChildren]

theorem filter_setKey_same {α : Type} (key : String) (f : α → Config) (l : List α) :
    (l.map (fun x => (f x).setKey key)).filter (fun ch => decide (ch.key = key)) =
      l.map (fun x => (f x).setKey key) := by
  rw [List.filter_eq_self]
  intro a ha
  obtain ⟨x, _, rfl⟩ := List.mem_map.mp ha
  simp [Config.setKey]

theorem filter_setKey_ne {α : Type} (key key2 : String) (hne : key ≠ key2) (f : α → Config)
    (l : List α) :
    (l.map (fun x => (f x).setKey key)).filter (fun ch => decide (ch.key = key2)) = [] := by
  rw [List.filter_eq_nil_iff]
  intro a ha
  obtain ⟨x, _, rfl⟩ := List.mem_map.mp ha
  simpa [Config.setKey] using hne

theorem filter_extensionsPart (ext : Config) (key2 : String) (hne : "extensions" ≠ key2) :
    (extensionsPart ext).filter (fun ch => decide (ch.key = key2)) = [] := by
  unfold extensionsPart
  by_cases h : ext.empty = true
  · simp [h]
  · simp [h, Config.setKey, hne]

/-- A layer section holds exactly one `name` child, the layer's name, and exactly one `driver`
child, the layer's driver tag. -/
theorem layerSection_name_driver (c : Collaborators Opt Src Ext) (kind : LayerKind)
    (key : String) (l : Layer Opt Src) :
    ((layerSection c kind l).setKey key).childrenOf "name" = [Config.ofKeyValue "name" l.name] ∧
    ((layerSection c kind l).setKey key).childrenOf "driver" =
      [Config.ofKeyValue "driver" (c.getDriver l.driver)] := by
  have hnd : ("name" : String) ≠ "driver" := by decide
  constructor
  · simp only [Config.childrenOf, layerSection, Config.set_eq, Config.setKey, Config.children_mk,
      List.filter_append, List.filter_filter]
    have h1 : List.filter (fun a => decide (a.key = "name") &&
        (!decide (a.key = "driver") && !decide (a.key = "name")))
        (c.documentFromOptions kind l).children = [] := by
      rw [List.filter_eq_nil_iff]
      intro a _
      cases decide (a.key = "name") <;> simp
    rw [h1]
    simp [Config.ofKeyValue, hnd]
  · simp only [Config.childrenOf, layerSection, Config.set_eq, Config.setKey, Config.children_mk,
      List.filter_append, List.filter_filter]
    have h1 : List.filter (fun a => decide (a.key = "driver") &&
        (!decide (a.key = "driver") && !decide (a.key = "name")))
        (c.documentFromOptions kind l).children = [] := by
      rw [List.filter_eq_nil_iff]
      intro a _
      cases decide (a.key = "driver") <;> simp
    rw [h1]
    simp [Config.ofKeyValue]

/-! ## Claims about the serializer -/

/-- C9: for every wrapper with a model, in the document emitted before any path rewriting the
`image` children are the sections of the model's image layers, one per layer and in the same
order, likewise the `elevation` children for the elevation layers and the `model` children for
the model layers; every such section has exactly one `name` child, holding the layer's name,
and exactly one `driver` child, holding the layer's driver tag; and the children of the root
are laid out as: other sections, all image sections, all elevation sections, all
model sections, other sections. -/
theorem serialized_layer_sections (c : Collaborators Opt Src Ext)
    (node : MapNode Opt Src Ext) (map : Map Opt Src) (hmap : node.map = some map) :
    (emitDocument c (some node)).childrenOf "image" =
      map.imageLayers.map (fun l => (layerSection c .image l).setKey "image") ∧
    (emitDocument c (some node)).childrenOf "elevation" =
      map.elevationLayers.map (fun l => (layerSection c .elevation l).setKey "elevation") ∧
    (emitDocument c (some node)).childrenOf "model" =
      map.modelLayers.map (fun l => (layerSection c .model l).setKey "model") ∧
    (∀ (kind : LayerKind) (key : String) (l : Layer Opt Src),
      ((layerSection c kind l).setKey key).key = key ∧
      ((layerSection c kind l).setKey key).childrenOf "name" =
        [Config.ofKeyValue "name" l.name] ∧
      ((layerSection c kind l).setKey key).childrenOf "driver" =
        [Config.ofKeyValue "driver" (c.getDriver l.driver)]) ∧
    ∃ pre post : List Config,
      (emitDocument c (some node)).children =
        pre ++ map.imageLayers.map (fun l => (layerSection c .image l).setKey "image") ++
          map.elevationLayers.map (fun l => (layerSection c .elevation l).setKey "elevation") ++
          map.modelLayers.map (fun l => (layerSection c .model l).setKey "model") ++ post ∧
      (∀ x ∈ pre ++ post, x.key ≠ "image" ∧ x.key ≠ "elevation" ∧ x.key ≠ "model") := by
  have hdoc : emitDocument c (some node) = serializeSections c node map serializeHeader := by
    simp [emitDocument, hmap]
  rw [hdoc, serializeSections_eq]
  refine ⟨?_, ?_, ?_, ?_, ?_⟩
  · simp only [Config.childrenOf, Config.children_mk, List.filter_append, filter_setKey_same,
      filter_setKey_ne "elevation" "image" (by decide),
      filter_setKey_ne "model" "image" (by decide),
      filter_extensionsPart _ "image" (by decide)]
    simp [Config.ofKeyValue, Config.setKey]
  · simp only [Config.childrenOf, Config.children_mk, List.filter_append, filter_setKey_same,
      filter_setKey_ne "image" "elevation" (by decide),
      filter_setKey_ne "model" "elevation" (by decide),
      filter_extensionsPart _ "elevation" (by decide)]
    simp [Config.ofKeyValue, Config.setKey]
  · simp only [Config.childrenOf, Config.children_mk, List.filter_append, filter_setKey_same,
      filter_setKey_ne "image" "model" (by decide),
      filter_setKey_ne "elevation" "model" (by decide),
      filter_extensionsPart _ "model" (by decide)]
    simp [Config.ofKeyValue, Config.setKey]
  · intro kind key l
    exact ⟨rfl, layerSection_name_driver c kind key l⟩
  · refine ⟨_, extensionsPart node.externalConfig, rfl, ?_⟩
    intro x hx
    rcases List.mem_append.mp hx with h | h
    · simp only [List.mem_cons, List.mem_singleton, List.not_mem_nil, or_false] at h
      rcases h with h | h <;> subst h <;> simp [Config.ofKeyValue, Config.setKey]
    · unfold extensionsPart at h
      by_cases he : node.externalConfig.empty = true
      · simp [he] at h
      · rw [if_neg he] at h
        rw [List.mem_singleton.mp h]
        simp [Config.setKey]

/-- Witness for C9: the document emitted for `sampleNode`. -/
theorem serialized_layer_sections_witness :
    ((emitDocument sampleCollab (some sampleNode)).childrenOf "image").map
        (fun s => (s.valueOf "name", s.valueOf "driver")) = [("base", "tms")] ∧
    ((emitDocument sampleCollab (some sampleNode)).childrenOf "elevation").map
        (fun s => (s.valueOf "name", s.valueOf "driver")) =
      [("terrain", "gdal"), ("bathymetry", "gdal")] ∧
    ((emitDocument sampleCollab (some sampleNode)).childrenOf "model").map
        (fun s => (s.valueOf "name", s.valueOf "driver")) = [("roads", "feature_geom")] ∧
    (emitDocument sampleCollab (some sampleNode)).children.map Config.key =
      ["version", "options", "image", "elevation", "elevation", "model", "extensions"] := by
  have h := serialized_layer_sections sampleCollab sampleNode _ rfl
  refine ⟨?_, ?_, ?_, by decide⟩
  · rw [h.1]; decide
  · rw [h.2.1]; decide
  · rw [h.2.2.1]; decide

/-- The rewriter leaves the bare root with its version marker alone: the root has children and
the marker has no referrer. -/
theorem apply_serializeHeader (fs : FileSystem) (rp : RewritePaths) :
    RewritePaths.apply fs rp serializeHeader = serializeHeader := by
  rw [serializeHeader_eq]
  simp [RewritePaths.apply, RewritePaths.applyChildren, RewritePaths.applyNode,
    Config.ofKeyValue, Config.isSimple]

/-- C10: for every wrapper (null, without model, or with a model) and every target location,
when a target location is supplied (non-empty referrer; in particular when it differs from the
wrapper's original location) the returned document is the path rewriter, constructed for that
target and with rewrite-absolute disabled, applied to the freshly emitted document; when no
target location is supplied (empty referrer) the returned document is the freshly emitted
document itself. -/
theorem serialize_conditional_rewrite (c : Collaborators Opt Src Ext) (fs : FileSystem)
    (input : Option (MapNode Opt Src Ext)) (referrer : String) :
    (referrer ≠ "" →
      serialize c fs input referrer =
        RewritePaths.apply fs (RewritePaths.new fs referrer) (emitDocument c input) ∧
      (RewritePaths.new fs referrer).rewriteAbsolutePaths = false) ∧
    serialize c fs input "" = emitDocument c input := by
  constructor
  · intro href
    refine ⟨?_, rfl⟩
    cases input with
    | none => simp only [serialize, emitDocument, apply_serializeHeader]
    | some node =>
      cases hm : node.map with
      | none => simp only [serialize, emitDocument, hm, apply_serializeHeader]
      | some map => simp only [serialize, emitDocument, hm, if_pos href]
  · cases input with
    | none => rfl
    | some node =>
      cases hm : node.map with
      | none => simp only [serialize, emitDocument, hm]
      | some map => simp [serialize, emitDocument, hm]

/-- Witness for C10: serializing `sampleNode` for `/share/new.earth`. -/
theorem serialize_conditional_rewrite_witness :
    serialize sampleCollab sampleFS (some sampleNode) "/share/new.earth" =
      RewritePaths.apply sampleFS (RewritePaths.new sampleFS "/share/new.earth")
        (emitDocument sampleCollab (some sampleNode)) ∧
    (RewritePaths.new sampleFS "/share/new.earth").rewriteAbsolutePaths = false :=
  (serialize_conditional_rewrite sampleCollab sampleFS (some sampleNode)
    "/share/new.earth").1 (by decide)

/-! ## Round trip -/

theorem Config.merge_self (c : Config) : c.merge c = c := by
  rw [Config.merge_eq]
  have h : c.children.filter
      (fun x => !(c.children.any (fun ch => decide (x.key = ch.key)))) = [] := by
    rw [List.filter_eq_nil_iff]
    intro a ha
    have hany : (c.children.any fun ch => decide (a.key = ch.key)) = true := by
      rw [List.any_eq_true]
      exact ⟨a, ha, by simp⟩
    simp [hany]
  rw [h, List.nil_append, Config.eta]

/-- A tree none of whose nodes the visitor changes is left unchanged by the rewriter. -/
theorem apply_eq_self (fs : FileSystem) (rp : RewritePaths) (doc : Config) :
    (∀ (path : List Nat) (n : Config), doc.nodeAt path = some n →
      RewritePaths.applyNode fs rp n = n) →
    RewritePaths.apply fs rp doc = doc := by
  induction doc using Config.induct with
  | step k v r cs ih =>
    intro h
    rw [RewritePaths.apply_eq, h [] _ rfl]
    simp only [Config.key_mk, Config.value_mk, Config.referrer_mk, Config.children_mk]
    congr 1
    have hcs : ∀ x ∈ cs, RewritePaths.apply fs rp x = x := by
      intro x hx
      apply ih x hx
      intro path n hn
      obtain ⟨i, hi, hxi⟩ := List.getElem_of_mem hx
      apply h (i :: path) n
      simp only [Config.nodeAt, Config.children_mk]
      rw [List.getElem?_eq_getElem hi, hxi]
      exact hn
    calc List.map (RewritePaths.apply fs rp) cs = List.map id cs :=
          List.map_congr_left (fun x hx => hcs x hx)
      _ = cs := List.map_id cs

theorem noPathLeafList_iff (fs : FileSystem) (l : List Config) :
    Config.noPathLeafList fs l = true ↔ ∀ x ∈ l, Config.noPathLeaf fs x = true := by
  induction l with
  | nil => simp [Config.noPathLeafList]
  | cons x xs ih => simp [Config.noPathLeafList, ih]

/-- The decision procedure is sound for `NoPathLeaves`. -/
theorem noPathLeaves_of_check (fs : FileSystem) (path : List Nat) :
    ∀ doc : Config, Config.noPathLeaf fs doc = true →
      ∀ n : Config, doc.nodeAt path = some n → n.children = [] → n.referrer ≠ "" →
        fs.fileExists (fs.convertFileNameToUnixStyle (fs.uriFull n.value n.referrer))
          = false := by
  induction path with
  | nil =>
    intro doc hdoc n hn hc hr
    cases doc with
    | mk k v r cs =>
      simp only [Config.nodeAt, Option.some.injEq] at hn
      subst hn
      simp only [Config.children_mk] at hc
      simp only [Config.referrer_mk] at hr
      simp only [Config.noPathLeaf, hc, List.isEmpty_nil, Bool.true_and, Bool.and_eq_true,
        Bool.or_eq_true, Bool.not_eq_true', decide_eq_false_iff_not] at hdoc
      rcases hdoc.1 with h | h
      · exact absurd hr h
      · exact h
  | cons i rest ih =>
    intro doc hdoc n hn hc hr
    cases doc with
    | mk k v r cs =>
      simp only [Config.nodeAt, Config.children_mk] at hn
      cases hi : cs[i]? with
      | none => rw [hi] at hn; cases hn
      | some ch =>
        rw [hi] at hn
        simp only [Config.noPathLeaf, Bool.and_eq_true] at hdoc
        have hch : Config.noPathLeaf fs ch = true :=
          (noPathLeafList_iff fs cs).mp hdoc.2 ch (List.getElem?_mem hi)
        exact ih ch hch n hn hc hr

/-- A document without path-like leaves is left unchanged by the rewriter. -/
theorem apply_of_noPathLeaves (fs : FileSystem) (rp : RewritePaths) (doc : Config)
    (h : NoPathLeaves fs doc) : RewritePaths.apply fs rp doc = doc := by
  apply apply_eq_self
  intro path n hn
  by_cases hr : n.referrer = ""
  · exact RewritePaths.applyNode_eq_self_of_skip fs rp n (Or.inl hr)
  · by_cases hc : n.children = []
    · exact RewritePaths.applyNode_eq_self_of_skip fs rp n
        (Or.inr (Or.inr (Or.inl (h path n hn hc hr))))
    · apply RewritePaths.applyNode_eq_self_of_skip fs rp n (Or.inr (Or.inl _))
      unfold Config.isSimple
      cases hcs : n.children with
      | nil => exact absurd hcs hc
      | cons x xs => rfl

theorem deserialize_fst (c : Collaborators Opt Src Ext) (fs : FileSystem) (conf : Config)
    (referrer : String) (paths : List String) :
    (deserialize c fs conf referrer paths).1 =
      installExtensions c (selectExtensions conf)
        (MapNode.new (deserializeLayers c conf (Map.new (deserializeMapOptions conf)))
          (conf.child "options")) := rfl

theorem installExtensions_mapNodeOptions (c : Collaborators Opt Src Ext) (ext : Config)
    (node : MapNode Opt Src Ext) :
    (installExtensions c ext node).mapNodeOptions = node.mapNodeOptions := by
  rw [installExtensions_eq]
  split_ifs <;> rfl

theorem installExtensions_externalConfig (c : Collaborators Opt Src Ext) (ext : Config)
    (node : MapNode Opt Src Ext) :
    (installExtensions c ext node).externalConfig =
      if ext.empty = true then node.externalConfig else ext := by
  rw [installExtensions_eq]
  split_ifs <;> rfl

/-- C6 (counterexample): with collaborators that are exact inverses, the bare document (a `map`
root, no path-like leaf, no legacy field) comes back from deserialize-then-serialize with a
version marker and an `options` section it did not have; and a document whose elevation source
is tagged `heightfield` comes back with that section tagged `elevation`. -/
theorem round_trip_changes_document :
    InverseCollaborators sampleCollab ∧
    bareDoc.children = [] ∧
    (serialize sampleCollab sampleFS
        (some (deserialize sampleCollab sampleFS bareDoc "" []).1) "").children =
      [Config.ofKeyValue "version" "2", Config.mk "options" "" "" []] ∧
    serialize sampleCollab sampleFS
        (some (deserialize sampleCollab sampleFS bareDoc "" []).1) "" ≠ bareDoc ∧
    (heightfieldDoc.children.map Config.key = ["version", "options", "heightfield"]) ∧
    (serialize sampleCollab sampleFS
        (some (deserialize sampleCollab sampleFS heightfieldDoc "" []).1) "").children.map
          Config.key = ["version", "options", "elevation"] := by
  refine ⟨⟨fun _ => rfl, fun _ => rfl, fun _ => rfl, fun _ => rfl, fun _ => rfl, fun _ => rfl⟩,
    rfl, rfl, ?_, by decide, by decide⟩
  intro h
  have h2 := congrArg (fun d : Config => d.children.length) h
  revert h2
  decide

/-! ### Comparing documents up to the order of their sections -/

theorem forall2_append {α β : Type} {R : α → β → Prop} {a a2 : List α} {b b2 : List β}
    (h1 : List.Forall₂ R a b) (h2 : List.Forall₂ R a2 b2) :
    List.Forall₂ R (a ++ a2) (b ++ b2) := by
  induction h1 with
  | nil => exact h2
  | cons hxy _ ih => exact List.Forall₂.cons hxy ih

theorem forall2_map_left {α : Type} {R : α → α → Prop} (f : α → α) (l : List α)
    (h : ∀ x ∈ l, R (f x) x) : List.Forall₂ R (l.map f) l := by
  induction l with
  | nil => exact List.Forall₂.nil
  | cons x xs ih =>
    exact List.Forall₂.cons (h x (List.mem_cons_self x xs))
      (ih (fun y hy => h y (List.mem_cons_of_mem x hy)))

theorem forall2_same {α : Type} {R : α → α → Prop} (l : List α) (h : ∀ x ∈ l, R x x) :
    List.Forall₂ R l l := by
  induction l with
  | nil => exact List.Forall₂.nil
  | cons x xs ih =>
    exact List.Forall₂.cons (h x (List.mem_cons_self x xs))
      (ih (fun y hy => h y (List.mem_cons_of_mem x hy)))

theorem SameSection.refl (a : Config) : SameSection a a :=
  ⟨rfl, rfl, List.Perm.refl _⟩

theorem filter_ne_filter_eq (l : List Config) (k k2 : String) (hne : k2 ≠ k) :
    (l.filter (fun ch => !decide (ch.key = k))).filter (fun ch => decide (ch.key = k2)) =
      l.filter (fun ch => decide (ch.key = k2)) := by
  rw [List.filter_filter]
  apply List.filter_congr
  intro x _
  by_cases hx : x.key = k2
  · have hxk : x.key ≠ k := fun e => hne (hx.symm.trans e)
    simp [hx, hxk]
    exact fun e => hne e
  · simp [hx]

theorem sectionsByKey_filter_ne (ks : List String) (k : String) (hk : k ∉ ks)
    (l : List Config) :
    sectionsByKey ks (l.filter (fun ch => !decide (ch.key = k))) = sectionsByKey ks l := by
  induction ks with
  | nil => rfl
  | cons k2 ks ih =>
    have hne : k2 ≠ k := fun e => hk (e ▸ List.mem_cons_self k2 ks)
    have hk2 : k ∉ ks := fun h => hk (List.mem_cons_of_mem k2 h)
    simp only [sectionsByKey, filter_ne_filter_eq l k k2 hne, ih hk2]

/-- Grouping the children by key rearranges them, when every child's key is one of the keys
and no key is listed twice. -/
theorem sectionsByKey_perm (ks : List String) (hnd : ks.Nodup) :
    ∀ l : List Config, (∀ x ∈ l, x.key ∈ ks) → List.Perm (sectionsByKey ks l) l := by
  induction ks with
  | nil =>
    intro l hl
    have : l = [] := by
      apply List.eq_nil_iff_forall_not_mem.mpr
      intro x hx
      exact absurd (hl x hx) (List.not_mem_nil _)
    rw [this]
    exact List.Perm.refl _
  | cons k ks ih =>
    intro l hl
    have hk : k ∉ ks := (List.nodup_cons.mp hnd).1
    have hl2 : ∀ x ∈ l.filter (fun ch => !decide (ch.key = k)), x.key ∈ ks := by
      intro x hx
      have hxm := List.mem_filter.mp hx
      have hxk : x.key ≠ k := by simpa using hxm.2
      rcases List.mem_cons.mp (hl x hxm.1) with h | h
      · exact absurd h hxk
      · exact h
    have hrec := ih (List.nodup_cons.mp hnd).2 _ hl2
    rw [sectionsByKey_filter_ne ks k hk l] at hrec
    simp only [sectionsByKey]
    exact (List.Perm.append_left _ hrec).trans
      (List.filter_append_perm (fun ch => decide (ch.key = k)) l)

theorem restampSection_eq (s : Config) :
    restampSection s = Config.mk s.key s.value s.referrer
      (s.children.filter (fun ch => !decide (ch.key = "name") && !decide (ch.key = "driver"))
        ++ [Config.ofKeyValue "name" (s.valueOf "name"),
            Config.ofKeyValue "driver" (s.valueOf "driver")]) := by
  unfold restampSection
  rw [Config.set_eq, Config.set_eq]
  simp only [Config.key_mk, Config.value_mk, Config.referrer_mk, Config.children_mk,
    List.filter_append, List.filter_filter]
  congr 1
  have h1 : List.filter (fun ch => !decide (ch.key = "driver"))
      [Config.ofKeyValue "name" (s.valueOf "name")] =
      [Config.ofKeyValue "name" (s.valueOf "name")] := by
    simp [Config.ofKeyValue]
  rw [h1, List.append_assoc]
  congr 1
  apply List.filter_congr
  intro x _
  exact Bool.and_comm _ _

theorem eraseReferrers_leaf (n : Config) (k : String) (hk : n.key = k)
    (hc : n.children = []) :
    n.eraseReferrers = (Config.ofKeyValue k n.value).eraseReferrers := by
  cases n with
  | mk kn vn rn cn =>
    simp only [Config.key_mk] at hk
    simp only [Config.children_mk] at hc
    subst hk
    subst hc
    rfl

theorem key_of_mem_childrenOf (s x : Config) (k : String) (h : x ∈ s.childrenOf k) :
    x.key = k := by
  unfold Config.childrenOf at h
  simpa using (List.mem_filter.mp h).2

/-- A layer section with exactly one `name` leaf and exactly one `driver` leaf comes back the
same up to the order of its children. -/
theorem sameSection_restampSection (s : Config)
    (hn : ∃ n, s.childrenOf "name" = [n] ∧ n.children = [])
    (hd : ∃ d, s.childrenOf "driver" = [d] ∧ d.children = []) :
    SameSection (restampSection s) s := by
  obtain ⟨n, hn1, hn2⟩ := hn
  obtain ⟨d, hd1, hd2⟩ := hd
  have hnk : n.key = "name" := key_of_mem_childrenOf s n "name" (by rw [hn1]; simp)
  have hdk : d.key = "driver" := key_of_mem_childrenOf s d "driver" (by rw [hd1]; simp)
  have hvn : s.valueOf "name" = n.value := by
    unfold Config.valueOf
    rw [Config.child_of_childrenOf_cons s "name" n [] hn1]
  have hvd : s.valueOf "driver" = d.value := by
    unfold Config.valueOf
    rw [Config.child_of_childrenOf_cons s "driver" d [] hd1]
  refine ⟨?_, ?_, ?_⟩
  · rw [restampSection_eq]; rfl
  · rw [restampSection_eq]; rfl
  · rw [restampSection_eq, Config.children_mk, eraseReferrersList_eq_map,
      eraseReferrersList_eq_map, hvn, hvd]
    have hsplit1 : List.Perm s.children
        ([n] ++ s.children.filter (fun ch => !decide (ch.key = "name"))) := by
      have h := (List.filter_append_perm (fun ch : Config => decide (ch.key = "name"))
        s.children).symm
      have e : s.children.filter (fun ch => decide (ch.key = "name")) = [n] := hn1
      rw [e] at h
      exact h
    have hsplit2 : List.Perm (s.children.filter (fun ch => !decide (ch.key = "name")))
        ([d] ++ s.children.filter
          (fun ch => !decide (ch.key = "name") && !decide (ch.key = "driver"))) := by
      have h := (List.filter_append_perm (fun ch : Config => decide (ch.key = "driver"))
        (s.children.filter (fun ch => !decide (ch.key = "name")))).symm
      rw [filter_ne_filter_eq s.children "name" "driver" (by decide)] at h
      have e : s.children.filter (fun ch => decide (ch.key = "driver")) = [d] := hd1
      rw [e, List.filter_filter] at h
      have e2 : s.children.filter
          (fun a => !decide (a.key = "driver") && !decide (a.key = "name")) =
          s.children.filter
            (fun ch => !decide (ch.key = "name") && !decide (ch.key = "driver")) := by
        apply List.filter_congr
        intro x _
        exact Bool.and_comm _ _
      rw [e2] at h
      exact h
    have hall : List.Perm s.children
        (s.children.filter (fun ch => !decide (ch.key = "name") && !decide (ch.key = "driver"))
          ++ [n, d]) := by
      refine (hsplit1.trans (List.Perm.append_left [n] hsplit2)).trans ?_
      rw [← List.append_assoc]
      exact List.perm_append_comm
    refine List.Perm.trans ?_ (hall.map Config.eraseReferrers).symm
    simp only [List.map_append, List.map_cons, List.map_nil]
    rw [eraseReferrers_leaf n "name" hnk hn2, eraseReferrers_leaf d "driver" hdk hd2]

/-! ### Documents without path-like leaves -/

theorem noPathLeaf_iff (fs : FileSystem) (c : Config) :
    Config.noPathLeaf fs c = true ↔
      ((c.children = [] → c.referrer ≠ "" →
          fs.fileExists (fs.convertFileNameToUnixStyle (fs.uriFull c.value c.referrer))
            = false) ∧
        ∀ x ∈ c.children, Config.noPathLeaf fs x = true) := by
  cases c with
  | mk k v r cs =>
    simp only [Config.noPathLeaf, Bool.and_eq_true, noPathLeafList_iff, Config.children_mk,
      Config.referrer_mk, Config.value_mk]
    constructor
    · rintro ⟨h1, h2⟩
      refine ⟨fun hc hr => ?_, h2⟩
      subst hc
      simp only [List.isEmpty_nil, Bool.true_and, Bool.or_eq_true, Bool.not_eq_true',
        decide_eq_false_iff_not] at h1
      rcases h1 with h | h
      · exact absurd hr h
      · exact h
    · rintro ⟨h1, h2⟩
      refine ⟨?_, h2⟩
      cases cs with
      | nil =>
        by_cases hr : r = ""
        · simp [hr]
        · simp [hr, h1 rfl hr]
      | cons x xs => simp

/-- The decision procedure is complete for `NoPathLeaves`. -/
theorem check_of_noPathLeaves (fs : FileSystem) (doc : Config) :
    NoPathLeaves fs doc → Config.noPathLeaf fs doc = true := by
  induction doc using Config.induct with
  | step k v r cs ih =>
    intro h
    rw [noPathLeaf_iff]
    refine ⟨fun hc hr => h [] _ rfl hc hr, ?_⟩
    intro x hx
    simp only [Config.children_mk] at hx
    apply ih x hx
    intro path n hn hc hr
    obtain ⟨i, hi, hxi⟩ := List.getElem_of_mem hx
    apply h (i :: path) n _ hc hr
    simp only [Config.nodeAt, Config.children_mk]
    rw [List.getElem?_eq_getElem hi, hxi]
    exact hn

theorem noPathLeaves_iff_check (fs : FileSystem) (doc : Config) :
    NoPathLeaves fs doc ↔ Config.noPathLeaf fs doc = true :=
  ⟨check_of_noPathLeaves fs doc,
    fun h path n hn hc hr => noPathLeaves_of_check fs path doc h n hn hc hr⟩

theorem noPathLeaf_ofKeyValue (fs : FileSystem) (k v : String) :
    Config.noPathLeaf fs (Config.ofKeyValue k v) = true := by
  rw [noPathLeaf_iff]
  exact ⟨fun _ hr => absurd rfl hr, fun x hx => by cases hx⟩

/-- A restamped section has no path-like leaf when the section has none. -/
theorem noPathLeaf_restampSection (fs : FileSystem) (s : Config)
    (h : Config.noPathLeaf fs s = true) :
    Config.noPathLeaf fs (restampSection s) = true := by
  have hs := (noPathLeaf_iff fs s).mp h
  rw [restampSection_eq, noPathLeaf_iff]
  refine ⟨fun hc => ?_, ?_⟩
  · simp at hc
  · intro x hx
    simp only [Config.children_mk, List.mem_append, List.mem_cons, List.mem_singleton,
      List.not_mem_nil, or_false] at hx
    rcases hx with hx | hx | hx
    · exact hs.2 x (List.mem_filter.mp hx).1
    · rw [hx]; exact noPathLeaf_ofKeyValue fs _ _
    · rw [hx]; exact noPathLeaf_ofKeyValue fs _ _

/-! ### The round trip of a document made of what `serialize` writes -/

theorem childrenOf_eq_nil_of_keys (doc : Config) (ks : List String) (k : String)
    (h : ∀ ch ∈ doc.children, ch.key ∈ ks) (hk : k ∉ ks) : doc.childrenOf k = [] := by
  unfold Config.childrenOf
  rw [List.filter_eq_nil_iff]
  intro x hx hxk
  rw [decide_eq_true_eq] at hxk
  exact hk (hxk ▸ h x hx)

theorem mem_children_of_mem_childrenOf (doc x : Config) (k : String)
    (h : x ∈ doc.childrenOf k) : x ∈ doc.children := by
  unfold Config.childrenOf at h
  exact (List.mem_filter.mp h).1

/-- Re-emitting the layers made from sections keyed `key` gives the restamped sections. -/
theorem layerSections_restamp (c : Collaborators Opt Src Ext) (kind : LayerKind)
    (key : String) (layerOf : Config → Layer Opt Src) (sections : List Config)
    (hdoc : ∀ s, c.documentFromOptions kind (layerOf s) = s)
    (hname : ∀ s, (layerOf s).name = s.valueOf "name")
    (hdrv : ∀ s, c.getDriver (layerOf s).driver = s.valueOf "driver")
    (hkey : ∀ s ∈ sections, s.key = key) :
    (sections.map layerOf).map (fun l => (layerSection c kind l).setKey key) =
      sections.map restampSection := by
  rw [List.map_map]
  apply List.map_congr_left
  intro s hs
  simp only [Function.comp, layerSection, hdoc, hname, hdrv]
  have e : (s.set "name" (s.valueOf "name")).set "driver" (s.valueOf "driver")
      = restampSection s := rfl
  rw [e, restampSection_eq, Config.setKey, ← hkey s hs]
  rfl

/-- The document `deserialize` followed by `serialize` returns for a document made of what
`serialize` writes: version marker, options, restamped image, elevation and model sections,
extension subtree. -/
theorem round_trip_closed_form (c : Collaborators Opt Src Ext) (fs : FileSystem)
    (referrer : String) (paths : List String) (doc : Config)
    (hinv : InverseCollaborators c) (hlayout : SerializedLayout doc)
    (hnp : NoPathLeaves fs doc) :
    serialize c fs (some (deserialize c fs doc referrer paths).1) referrer =
      Config.mk "map" "" ""
        ([Config.ofKeyValue "version" "2"] ++ doc.childrenOf "options" ++
          (doc.childrenOf "image").map restampSection ++
          (doc.childrenOf "elevation").map restampSection ++
          (doc.childrenOf "model").map restampSection ++
          doc.childrenOf "extensions") := by
  obtain ⟨hi1, hi2, hi3, hi4, hi5, hi6⟩ := hinv
  obtain ⟨_, _, hkeys, _, ⟨opts, hopts⟩, hextlen, _⟩ := hlayout
  have cName := childrenOf_eq_nil_of_keys doc _ "name" hkeys (by decide)
  have cType := childrenOf_eq_nil_of_keys doc _ "type" hkeys (by decide)
  have cHeight := childrenOf_eq_nil_of_keys doc _ "heightfield" hkeys (by decide)
  have cMask := childrenOf_eq_nil_of_keys doc _ "mask" hkeys (by decide)
  have cExternal := childrenOf_eq_nil_of_keys doc _ "external" hkeys (by decide)
  have hoptsKey : opts.key = "options" :=
    key_of_mem_childrenOf doc opts "options" (by rw [hopts]; simp)
  have cOpts : doc.child "options" = opts :=
    Config.child_of_childrenOf_cons doc "options" opts [] hopts
  have hMapOptions : deserializeMapOptions doc = opts := by
    simp [deserializeMapOptions, Config.hasValue, Config.valueOf,
      Config.child_of_childrenOf_nil _ _ cName, Config.child_of_childrenOf_nil _ _ cType,
      Config.emptyConfig, cOpts]
  have hSelect : selectExtensions doc =
      ((doc.childrenOf "extensions").head?).getD Config.emptyConfig := by
    unfold selectExtensions
    rw [Config.child_of_childrenOf_nil _ _ cExternal, Config.child_eq_head]
    rfl
  have hPart : extensionsPart
      (if (((doc.childrenOf "extensions").head?).getD Config.emptyConfig).empty = true
        then Config.emptyConfig
        else ((doc.childrenOf "extensions").head?).getD Config.emptyConfig) =
      doc.childrenOf "extensions" := by
    cases hX : doc.childrenOf "extensions" with
    | nil => rfl
    | cons e es =>
      cases es with
      | cons e2 es2 => rw [hX] at hextlen; simp at hextlen
      | nil =>
        have hek : e.key = "extensions" :=
          key_of_mem_childrenOf doc e "extensions" (by rw [hX]; simp)
        have he : e.empty = false := by
          simp [Config.empty, hek]
        simp only [List.head?_cons, Option.getD_some, he, extensionsPart, Bool.false_eq_true,
          if_false]
        rw [Config.setKey, ← hek, Config.eta]
  have hmap := deserialize_map c fs doc referrer paths
  rw [deserializeLayers_new, hMapOptions, cHeight, cMask] at hmap
  have hkeyOf : ∀ (k : String), ∀ s ∈ doc.childrenOf k, s.key = k :=
    fun k s hs => key_of_mem_childrenOf doc s k hs
  have hdoc : serializeSections c (deserialize c fs doc referrer paths).1
      { initialMapOptions := opts
        imageLayers := (doc.childrenOf "image").map (imageLayerOf c)
        elevationLayers := (doc.childrenOf "elevation").map (elevationLayerOf c) ++
          [].map (elevationLayerOf c)
        modelLayers := (doc.childrenOf "model").map (modelLayerOf c)
        terrainMaskLayer := ([].map (maskLayerOf c)).getLast? } serializeHeader =
      Config.mk "map" "" ""
        ([Config.ofKeyValue "version" "2"] ++ doc.childrenOf "options" ++
          (doc.childrenOf "image").map restampSection ++
          (doc.childrenOf "elevation").map restampSection ++
          (doc.childrenOf "model").map restampSection ++
          doc.childrenOf "extensions") := by
    rw [serializeSections_eq, deserialize_fst, installExtensions_mapNodeOptions,
      installExtensions_externalConfig, hSelect]
    simp only [MapNode.new, cOpts, Config.merge_self, List.map_nil, List.append_nil, hPart]
    rw [layerSections_restamp c .image "image" (imageLayerOf c) _ hi1 (fun _ => rfl) hi4
        (hkeyOf "image"),
      layerSections_restamp c .elevation "elevation" (elevationLayerOf c) _ hi2
        (fun _ => rfl) hi5 (hkeyOf "elevation"),
      layerSections_restamp c .model "model" (modelLayerOf c) _ hi3 (fun _ => rfl) hi6
        (hkeyOf "model")]
    have ho : opts.setKey "options" = opts := by
      rw [Config.setKey, ← hoptsKey, Config.eta]
    rw [ho, hopts]
    rfl
  have hcheck := (noPathLeaf_iff fs doc).mp (check_of_noPathLeaves fs doc hnp)
  have hmem : ∀ (k : String), ∀ x ∈ doc.childrenOf k, Config.noPathLeaf fs x = true :=
    fun k x hx => hcheck.2 x (mem_children_of_mem_childrenOf doc x k hx)
  have hout : NoPathLeaves fs (Config.mk "map" "" ""
        ([Config.ofKeyValue "version" "2"] ++ doc.childrenOf "options" ++
          (doc.childrenOf "image").map restampSection ++
          (doc.childrenOf "elevation").map restampSection ++
          (doc.childrenOf "model").map restampSection ++
          doc.childrenOf "extensions")) := by
    rw [noPathLeaves_iff_check, noPathLeaf_iff]
    refine ⟨fun _ hr => absurd rfl hr, ?_⟩
    intro x hx
    simp only [Config.children_mk, List.mem_append, List.mem_singleton, List.mem_map] at hx
    rcases hx with ((((hx | hx) | ⟨s, hs, hx⟩) | ⟨s, hs, hx⟩) | ⟨s, hs, hx⟩) | hx
    · rw [hx]; exact noPathLeaf_ofKeyValue fs _ _
    · exact hmem "options" x hx
    · rw [← hx]; exact noPathLeaf_restampSection fs s (hmem "image" s hs)
    · rw [← hx]; exact noPathLeaf_restampSection fs s (hmem "elevation" s hs)
    · rw [← hx]; exact noPathLeaf_restampSection fs s (hmem "model" s hs)
    · exact hmem "extensions" x hx
  unfold serialize
  simp only [hmap, hdoc]
  split_ifs
  · exact apply_of_noPathLeaves fs _ _ hout
  · rfl

/-- C6 (amended): with layer-option collaborators that are exact inverses, for every document
made of what `serialize` writes, its sections in any order and its nodes carrying any
referrers (a `map` root without value; one version marker `2`, one `options` section, `image`,
`elevation` and `model` sections, at most one `extensions` section; every layer section with
exactly one `name` leaf and one `driver` leaf), and with no path-like leaf, `deserialize`
followed by `serialize` with the same referrer returns the `map` root holding the version
marker, the `options` section unchanged, the image sections, the elevation sections, the
model sections (each in document order, with its `name` and `driver` leaves rewritten last) and the
extension subtree unchanged.  That document equals the original modulo the ordering of
its sections and of the children of a section, referrers aside. -/
theorem round_trip_modulo_order (c : Collaborators Opt Src Ext) (fs : FileSystem)
    (referrer : String) (paths : List String) (doc : Config)
    (hinv : InverseCollaborators c) (hlayout : SerializedLayout doc)
    (hnp : NoPathLeaves fs doc) :
    serialize c fs (some (deserialize c fs doc referrer paths).1) referrer =
      Config.mk "map" "" ""
        ([Config.ofKeyValue "version" "2"] ++ doc.childrenOf "options" ++
          (doc.childrenOf "image").map restampSection ++
          (doc.childrenOf "elevation").map restampSection ++
          (doc.childrenOf "model").map restampSection ++
          doc.childrenOf "extensions") ∧
    SameDocument (serialize c fs (some (deserialize c fs doc referrer paths).1) referrer)
      doc := by
  have hclosed := round_trip_closed_form c fs referrer paths doc hinv hlayout hnp
  refine ⟨hclosed, ?_⟩
  rw [hclosed]
  obtain ⟨hkey, hval, hkeys, ⟨ver, hver, hv2, hvc⟩, _, _, hlayers⟩ := hlayout
  refine ⟨hkey.symm, hval.symm,
    sectionsByKey ["version", "options", "image", "elevation", "model", "extensions"]
      doc.children,
    sectionsByKey_perm _ (by decide) doc.children hkeys, ?_⟩
  have hverKey : ver.key = "version" :=
    key_of_mem_childrenOf doc ver "version" (by rw [hver]; simp)
  have hVer : List.Forall₂ SameSection [Config.ofKeyValue "version" "2"]
      (doc.childrenOf "version") := by
    rw [hver]
    refine List.Forall₂.cons ⟨hverKey.symm, hv2.symm, ?_⟩ List.Forall₂.nil
    rw [hvc]
    exact List.Perm.refl _
  have hLayer : ∀ (k : String), k ∈ ["image", "elevation", "model"] →
      List.Forall₂ SameSection ((doc.childrenOf k).map restampSection) (doc.childrenOf k) := by
    intro k hk
    apply forall2_map_left
    intro s hs
    have hsk : s.key = k := key_of_mem_childrenOf doc s k hs
    have hl := hlayers s (mem_children_of_mem_childrenOf doc s k hs) (hsk ▸ hk)
    exact sameSection_restampSection s hl.1 hl.2
  have hSame : ∀ l : List Config, List.Forall₂ SameSection l l :=
    fun l => forall2_same l (fun x _ => SameSection.refl x)
  have hall := forall2_append (forall2_append (forall2_append (forall2_append
    (forall2_append hVer (hSame (doc.childrenOf "options")))
    (hLayer "image" (by simp))) (hLayer "elevation" (by simp))) (hLayer "model" (by simp)))
    (hSame (doc.childrenOf "extensions"))
  simpa only [Config.children_mk, sectionsByKey, Config.childrenOf, List.append_assoc,
    List.append_nil] using hall

/-- Witness for C6 (amended): `taggedDoc`, read from `/maps/old.earth` with every node tagged
and its sections out of order, round-trips for the referrer `/share/new.earth` to the document
holding version marker, options, the two image sections, the elevation section, the
model section and the extension subtree, which is `taggedDoc` modulo ordering. -/
theorem round_trip_modulo_order_witness :
    (serialize sampleCollab sampleFS
        (some (deserialize sampleCollab sampleFS taggedDoc "/share/new.earth" []).1)
        "/share/new.earth").children.map Config.key =
      ["version", "options", "image", "image", "elevation", "model", "extensions"] ∧
    SameDocument
      (serialize sampleCollab sampleFS
        (some (deserialize sampleCollab sampleFS taggedDoc "/share/new.earth" []).1)
        "/share/new.earth")
      taggedDoc := by
  have hlayer : ∀ (key name driver : String),
      (∃ n, (taggedSection key name driver).childrenOf "name" = [n] ∧ n.children = []) ∧
      (∃ d, (taggedSection key name driver).childrenOf "driver" = [d] ∧ d.children = []) :=
    fun key name driver => ⟨⟨_, rfl, rfl⟩, ⟨_, rfl, rfl⟩⟩
  have h := round_trip_modulo_order sampleCollab sampleFS "/share/new.earth" [] taggedDoc
    ⟨fun _ => rfl, fun _ => rfl, fun _ => rfl, fun _ => rfl, fun _ => rfl, fun _ => rfl⟩
    ⟨rfl, rfl,
      (by
        intro ch hch
        simp only [taggedDoc, Config.children_mk, List.mem_cons, List.mem_singleton,
          List.not_mem_nil, or_false] at hch
        rcases hch with h | h | h | h | h | h | h <;> subst h <;> decide),
      ⟨_, rfl, rfl, rfl⟩, ⟨_, rfl⟩, (by decide),
      (by
        intro s hs hk
        simp only [taggedDoc, Config.children_mk, List.mem_cons, List.mem_singleton,
          List.not_mem_nil, or_false] at hs
        rcases hs with h | h | h | h | h | h | h <;> subst h
        · exact hlayer _ _ _
        · exact absurd hk (by decide)
        · exact hlayer _ _ _
        · exact absurd hk (by decide)
        · exact hlayer _ _ _
        · exact hlayer _ _ _
        · exact absurd hk (by decide))⟩
    ((noPathLeaves_iff_check sampleFS taggedDoc).mpr (by decide))
  refine ⟨?_, h.2⟩
  rw [h.1]
  decide

end SerializerFacts

/-! ## Further claims about the path rewriter -/

namespace RewritePaths

/-- What the visitor does to a path leaf: a simple node with a referrer whose value resolves
to an existing file and is relative (or absolute paths are rewritten too). -/
theorem applyNode_of_pathLeaf (fs : FileSystem) (rp : RewritePaths) (c : Config)
    (hLeaf : c.children = []) (hRef : c.referrer ≠ "")
    (hFile : fs.fileExists (fs.convertFileNameToUnixStyle (fs.uriFull c.value c.referrer))
      = true)
    (hRel : fs.isAbsolutePath c.value = false ∨ rp.rewriteAbsolutePaths = true) :
    (applyNode fs rp c).value = fs.getPathRelative rp.newReferrerFolder
        (fs.convertFileNameToUnixStyle (fs.uriFull c.value c.referrer)) ∧
    ((applyNode fs rp c).value ≠ c.value →
      (applyNode fs rp c).referrer = rp.newReferrerAbsPath) ∧
    ((applyNode fs rp c).value = c.value → (applyNode fs rp c).referrer = c.referrer) := by
  have h1 : c.referrer ≠ "" ∧ c.isSimple = true := by
    refine ⟨hRef, ?_⟩
    unfold Config.isSimple
    rw [hLeaf]
    rfl
  by_cases h4 : c.value ≠ fs.getPathRelative rp.newReferrerFolder
      (fs.convertFileNameToUnixStyle (fs.uriFull c.value c.referrer))
  · have e : applyNode fs rp c = (c.setValue (fs.getPathRelative rp.newReferrerFolder
        (fs.convertFileNameToUnixStyle (fs.uriFull c.value c.referrer)))).setReferrer
          rp.newReferrerAbsPath := by
      simp only [applyNode, if_pos h1, if_pos hFile, if_pos hRel, if_pos h4]
    rw [e]
    exact ⟨rfl, fun _ => rfl, fun h => absurd h.symm h4⟩
  · have e : applyNode fs rp c = c := by
      simp only [applyNode, if_pos h1, if_pos hFile, if_pos hRel, if_neg h4]
    rw [e]
    exact ⟨not_not.mp h4, fun h => absurd rfl h, fun _ => rfl⟩

/-- C11: for every leaf at any depth of the tree that has a non-empty referrer and whose value,
resolved against its own referrer, names an existing file, if the raw value is relative or the
rewrite-absolute flag is enabled, then the leaf stands at the same place of the rewritten tree
with value `getPathRelative(anchor, resolved)`, where `resolved` is the resolved location in
unix-style separators and the anchor directory `getFilePath(findDataFile(...))` depends on the
new referrer only; when that value differs from the old one the leaf's referrer is the new
referrer's absolute form, and otherwise the referrer is the old one. -/
theorem path_leaf_rewritten (fs : FileSystem) (referrer : String) (flag : Bool)
    (input : Config) (path : List Nat) (leaf : Config)
    (hAt : input.nodeAt path = some leaf)
    (hLeaf : leaf.children = [])
    (hRef : leaf.referrer ≠ "")
    (hFile : fs.fileExists
      (fs.convertFileNameToUnixStyle (fs.uriFull leaf.value leaf.referrer)) = true)
    (hRel : fs.isAbsolutePath leaf.value = false ∨ flag = true) :
    ∃ out, (apply fs ((new fs referrer).setRewriteAbsolutePaths flag) input).nodeAt path
        = some out ∧
      out.key = leaf.key ∧ out.children = [] ∧
      out.value =
        fs.getPathRelative
          (fs.getFilePath (fs.findDataFile
            (fs.convertFileNameToUnixStyle (fs.getRealPath referrer))))
          (fs.convertFileNameToUnixStyle (fs.uriFull leaf.value leaf.referrer)) ∧
      (out.value ≠ leaf.value →
        out.referrer = fs.convertFileNameToUnixStyle (fs.getRealPath referrer)) ∧
      (out.value = leaf.value → out.referrer = leaf.referrer) := by
  have h := applyNode_of_pathLeaf fs ((new fs referrer).setRewriteAbsolutePaths flag) leaf
    hLeaf hRef hFile hRel
  refine ⟨apply fs ((new fs referrer).setRewriteAbsolutePaths flag) leaf, ?_, ?_, ?_, ?_, ?_, ?_⟩
  · rw [nodeAt_apply, hAt]; rfl
  · exact apply_key _ _ _
  · rw [apply_children, hLeaf]; rfl
  · rw [apply_value]; exact h.1
  · rw [apply_value, apply_referrer]; exact h.2.1
  · rw [apply_value, apply_referrer]; exact h.2.2

/-- Witness for C11: the `url` leaf of `sampleDoc`, two levels below the root, rewritten for
`/share/new.earth`, and the absolute `icon` leaf rewritten with the flag enabled. -/
theorem path_leaf_rewritten_witness :
    (∃ out, (apply sampleFS ((new sampleFS "/share/new.earth").setRewriteAbsolutePaths false)
        sampleDoc).nodeAt [0, 0] = some out ∧
      out.key = "url" ∧ out.children = [] ∧
      out.value = "../maps/a.tif" ∧
      (out.value ≠ "a.tif" → out.referrer = "/share/new.earth") ∧
      (out.value = "a.tif" → out.referrer = "/maps/old.earth")) ∧
    (∃ out, (apply sampleFS ((new sampleFS "/share/new.earth").setRewriteAbsolutePaths true)
        sampleDoc).nodeAt [0, 2] = some out ∧
      out.key = "icon" ∧ out.children = [] ∧
      out.value = "../maps/a.tif" ∧
      (out.value ≠ "/maps/a.tif" → out.referrer = "/share/new.earth") ∧
      (out.value = "/maps/a.tif" → out.referrer = "/maps/old.earth")) :=
  ⟨path_leaf_rewritten sampleFS "/share/new.earth" false sampleDoc [0, 0]
      (.mk "url" "a.tif" "/maps/old.earth" []) rfl rfl (by decide) (by decide)
      (Or.inl (by decide)),
    path_leaf_rewritten sampleFS "/share/new.earth" true sampleDoc [0, 2]
      (.mk "icon" "/maps/a.tif" "/maps/old.earth" []) rfl rfl (by decide) (by decide)
      (Or.inr rfl)⟩

theorem skeletonList_eq_map (l : List Config) :
    Config.skeletonList l = l.map Config.skeleton := by
  induction l with
  | nil => rfl
  | cons x xs ih => simp [Config.skeletonList, ih]

/-- The rewriter keeps the shape of the whole tree. -/
theorem skeleton_apply (fs : FileSystem) (rp : RewritePaths) (c : Config) :
    (apply fs rp c).skeleton = c.skeleton := by
  induction c using Config.induct with
  | step k v r cs ih =>
    rw [apply_eq]
    simp only [Config.skeleton, skeletonList_eq_map, Config.key_mk, Config.children_mk,
      List.map_map]
    congr 1
    apply List.map_congr_left
    intro x hx
    exact ih x hx

/-- C19: for every tree, new referrer and flag setting, `RewritePaths.apply` is a total function
(it returns a tree for every input) and the resulting tree has the shape of the input: the same
keys, the same number of children at every node and the same child order (equal skeletons, and
node by node: the node at a path of the input has a counterpart at the same path of the result,
with the same key, as many children, and children carrying the same keys in the same order);
every composite node and every node with an empty referrer keeps its value and referrer. -/
theorem rewriter_preserves_shape (fs : FileSystem) (referrer : String) (flag : Bool)
    (input : Config) :
    (∃ result, apply fs ((new fs referrer).setRewriteAbsolutePaths flag) input = result ∧
      result.skeleton = input.skeleton) ∧
    (∀ path : List Nat,
      ((apply fs ((new fs referrer).setRewriteAbsolutePaths flag) input).nodeAt path).isSome =
        (input.nodeAt path).isSome) ∧
    (∀ (path : List Nat) (n : Config), input.nodeAt path = some n →
      ∃ out, (apply fs ((new fs referrer).setRewriteAbsolutePaths flag) input).nodeAt path
          = some out ∧
        out.key = n.key ∧
        out.children.length = n.children.length ∧
        out.children.map Config.key = n.children.map Config.key ∧
        ((n.children ≠ [] ∨ n.referrer = "") →
          out.value = n.value ∧ out.referrer = n.referrer)) := by
  refine ⟨⟨_, rfl, skeleton_apply fs _ input⟩, ?_, ?_⟩
  · intro path
    rw [nodeAt_apply]
    cases input.nodeAt path <;> rfl
  · intro path n hn
    refine ⟨apply fs ((new fs referrer).setRewriteAbsolutePaths flag) n, ?_, ?_, ?_, ?_, ?_⟩
    · rw [nodeAt_apply, hn]; rfl
    · exact apply_key _ _ _
    · rw [apply_children, List.length_map]
    · rw [apply_children, List.map_map]
      apply List.map_congr_left
      intro x _
      exact apply_key _ _ x
    · intro h
      have hskip : applyNode fs ((new fs referrer).setRewriteAbsolutePaths flag) n = n := by
        rcases h with h | h
        · apply applyNode_eq_self_of_skip _ _ _ (Or.inr (Or.inl _))
          unfold Config.isSimple
          cases hcs : n.children with
          | nil => exact absurd hcs h
          | cons x xs => rfl
        · exact applyNode_eq_self_of_skip _ _ _ (Or.inl h)
      rw [apply_value, apply_referrer, hskip]
      exact ⟨rfl, rfl⟩

/-- Witness for C19: the composite `image` node of `sampleDoc` keeps key, child keys, value and
referrer when the tree is rewritten for `/out/sub/new.earth` with the flag enabled. -/
theorem rewriter_preserves_shape_witness :
    ∃ out, (apply sampleFS ((new sampleFS "/out/sub/new.earth").setRewriteAbsolutePaths true)
        sampleDoc).nodeAt [0] = some out ∧
      out.key = "image" ∧
      out.children.length = 3 ∧
      out.children.map Config.key = ["url", "driver", "icon"] ∧
      out.value = "" ∧ out.referrer = "/maps/old.earth" := by
  obtain ⟨out, h1, h2, h3, h4, h5⟩ :=
    (rewriter_preserves_shape sampleFS "/out/sub/new.earth" true sampleDoc).2.2 [0]
      (.mk "image" "" "/maps/old.earth"
        [.mk "url" "a.tif" "/maps/old.earth" [],
         .mk "driver" "gdal" "/maps/old.earth" [],
         .mk "icon" "/maps/a.tif" "/maps/old.earth" []]) rfl
  exact ⟨out, h1, h2, h3, h4, (h5 (Or.inl (by simp))).1, (h5 (Or.inl (by simp))).2⟩

end RewritePaths

/-! ## Further claims about the deserializer -/

section DeserializerClaims

variable {Opt Src Ext : Type}

/-- C12: for every document, the image-layer list built by `deserialize` has one layer per
`image` child, in document order, each built from that section and named with its `name`
value; the model-layer list has one layer per `model` child, in document order, each named
with that section's `name` value and with driver options built from the same section.  For
the root with an empty `options` section, one `image` section (`base`, `tms`), one
`elevation` section (`terrain`, `gdal`) and referrer `/data/world.earth` the result has one
image layer named `base`, one elevation layer named `terrain`, no model layer, no mask layer,
no stored extension subtree and no attached extension. -/
theorem image_model_layers_in_order (c : Collaborators Opt Src Ext) (fs : FileSystem)
    (conf : Config) (referrer : String) (paths : List String) :
    (∃ map, (deserialize c fs conf referrer paths).1.map = some map ∧
      map.imageLayers = (conf.childrenOf "image").map (imageLayerOf c) ∧
      map.imageLayers.length = (conf.childrenOf "image").length ∧
      map.imageLayers.map (fun l => l.name) =
        (conf.childrenOf "image").map (fun s => s.valueOf "name") ∧
      map.modelLayers = (conf.childrenOf "model").map (modelLayerOf c) ∧
      map.modelLayers.length = (conf.childrenOf "model").length ∧
      map.modelLayers.map (fun l => l.name) =
        (conf.childrenOf "model").map (fun s => s.valueOf "name") ∧
      map.modelLayers.map (fun l => l.driver) =
        (conf.childrenOf "model").map (fun s => c.sourceFromDocument .model s)) ∧
    (∃ map, (deserialize c fs worldDoc "/data/world.earth" paths).1.map = some map ∧
      map.imageLayers.map (fun l => l.name) = ["base"] ∧
      map.elevationLayers.map (fun l => l.name) = ["terrain"] ∧
      map.modelLayers = [] ∧
      map.terrainMaskLayer = none ∧
      (deserialize c fs worldDoc "/data/world.earth" paths).1.externalConfig
        = Config.emptyConfig ∧
      (deserialize c fs worldDoc "/data/world.earth" paths).1.extensions = []) := by
  constructor
  · refine ⟨_, deserialize_map c fs conf referrer paths, ?_⟩
    rw [deserializeLayers_new]
    simp [imageLayerOf, modelLayerOf]
  · refine ⟨_, deserialize_map c fs worldDoc "/data/world.earth" paths, ?_⟩
    rw [deserializeLayers_new]
    refine ⟨rfl, rfl, rfl, rfl, ?_, ?_⟩
    · rw [deserialize_fst, installExtensions_externalConfig]
      rfl
    · rw [deserialize_fst, installExtensions_eq]
      rfl

theorem foldl_append_paths (fs : FileSystem) (referrer : String) (urls : List Config) :
    ∀ paths : List String,
      urls.foldl (fun paths url => paths ++ [fs.getFullPath referrer url.value]) paths =
        paths ++ urls.map (fun url => fs.getFullPath referrer url.value) := by
  induction urls with
  | nil => intro paths; simp
  | cons u us ih =>
    intro paths
    rw [List.foldl_cons, ih]
    simp

/-- The search-path list returned by `deserialize`, in closed form. -/
theorem deserialize_snd (c : Collaborators Opt Src Ext) (fs : FileSystem) (conf : Config)
    (referrer : String) (paths : List String) :
    (deserialize c fs conf referrer paths).2 =
      paths ++ (((conf.child "options").child "osg_file_paths").childrenOf "url").map
        (fun url => fs.getFullPath referrer url.value) := by
  simp only [deserialize, deserializeFilePaths, foldl_append_paths]

/-- C13: `deserialize` of a document with no `options`, `image`, `elevation`, `heightfield`,
`model`, `mask`, `external` or `extensions` child and no top-level `name`/`type` value returns
a wrapper (nothing fails) whose model has empty map options, no image, elevation or model
layer and no mask layer, whose stored extension subtree is empty, which has no attached
extension; and the search-path list is the one before the call. -/
theorem absent_sections_are_empty (c : Collaborators Opt Src Ext) (fs : FileSystem)
    (conf : Config) (referrer : String) (paths : List String)
    (habsent : ∀ k ∈ ["options", "image", "elevation", "heightfield", "model", "mask",
      "external", "extensions"], conf.childrenOf k = [])
    (hname : conf.hasValue "name" = false) (htype : conf.hasValue "type" = false) :
    ∃ (w : MapNode Opt Src Ext) (map : Map Opt Src),
      deserialize c fs conf referrer paths = (w, paths) ∧
      w.map = some map ∧
      map.initialMapOptions = Config.emptyConfig ∧
      map.imageLayers = [] ∧ map.elevationLayers = [] ∧ map.modelLayers = [] ∧
      map.terrainMaskLayer = none ∧
      w.externalConfig = Config.emptyConfig ∧ w.externalConfig.empty = true ∧
      w.extensions = [] := by
  have hOpt := habsent "options" (by simp)
  have hImg := habsent "image" (by simp)
  have hElev := habsent "elevation" (by simp)
  have hHf := habsent "heightfield" (by simp)
  have hMod := habsent "model" (by simp)
  have hMask := habsent "mask" (by simp)
  have hExternal := habsent "external" (by simp)
  have hExt := habsent "extensions" (by simp)
  have hChildOpt : conf.child "options" = Config.emptyConfig :=
    Config.child_of_childrenOf_nil _ _ hOpt
  have hSel : selectExtensions conf = Config.emptyConfig := by
    unfold selectExtensions
    rw [Config.child_of_childrenOf_nil _ _ hExternal, Config.child_of_childrenOf_nil _ _ hExt]
    rfl
  have hMapOpts : deserializeMapOptions conf = Config.emptyConfig := by
    simp [deserializeMapOptions, hname, htype, hChildOpt]
  refine ⟨(deserialize c fs conf referrer paths).1,
    deserializeLayers c conf (Map.new (deserializeMapOptions conf)), ?_, ?_, ?_⟩
  · apply Prod.ext
    · rfl
    · rw [deserialize_snd, hChildOpt]
      simp [Config.child, Config.childrenOf, Config.emptyConfig]
  · exact deserialize_map c fs conf referrer paths
  · rw [deserializeLayers_new, hMapOpts, hImg, hElev, hHf, hMod, hMask]
    refine ⟨rfl, rfl, rfl, rfl, rfl, ?_⟩
    rw [deserialize_fst, installExtensions_eq, hSel]
    exact ⟨rfl, rfl, rfl⟩

/-- Witness for C13: the bare document, with one search path already registered. -/
theorem absent_sections_are_empty_witness :
    ∃ (w : MapNode Config String String) (map : Map Config String),
      deserialize sampleCollab sampleFS bareDoc "/maps/old.earth" ["/usr/share/osg"]
        = (w, ["/usr/share/osg"]) ∧
      w.map = some map ∧
      map.initialMapOptions = Config.emptyConfig ∧
      map.imageLayers = [] ∧ map.elevationLayers = [] ∧ map.modelLayers = [] ∧
      map.terrainMaskLayer = none ∧
      w.externalConfig = Config.emptyConfig ∧ w.externalConfig.empty = true ∧
      w.extensions = [] :=
  absent_sections_are_empty sampleCollab sampleFS bareDoc "/maps/old.earth" ["/usr/share/osg"]
    (by intro k _; rfl) (by decide) (by decide)

/-- C14: for every document the model produced by `deserialize` holds at most one terrain-mask
layer; it holds none exactly when the document has no `mask` section, and for the document
with two `mask` sections it holds exactly one. -/
theorem at_most_one_mask_layer (c : Collaborators Opt Src Ext) (fs : FileSystem)
    (conf : Config) (referrer : String) (paths : List String) :
    (∃ map, (deserialize c fs conf referrer paths).1.map = some map ∧
      map.terrainMaskLayer.toList.length ≤ 1 ∧
      (map.terrainMaskLayer = none ↔ conf.childrenOf "mask" = [])) ∧
    (twoMaskDoc.childrenOf "mask").length = 2 ∧
    (∃ map, (deserialize c fs twoMaskDoc referrer paths).1.map = some map ∧
      map.terrainMaskLayer.toList.length = 1) := by
  refine ⟨⟨_, deserialize_map c fs conf referrer paths, ?_, ?_⟩, rfl,
    ⟨_, deserialize_map c fs twoMaskDoc referrer paths, ?_⟩⟩
  · cases (deserializeLayers c conf (Map.new (deserializeMapOptions conf))).terrainMaskLayer
      <;> simp
  · rw [deserializeLayers_new]
    simp [List.getLast?_eq_none_iff]
  · rw [deserializeLayers_new]
    rfl

/-- C16: for every document, `deserialize` selects the `external` child if it is non-empty and
otherwise the `extensions` child, so a non-empty `external` child wins; if the selected
subtree is non-empty it is stored on the wrapper as it is and the attached extensions are the
non-null results of `createExtension(child key, child)` over the children of the selected
subtree, in document order; if it is empty nothing is stored (the stored subtree stays the
empty node) and no extension is attached. -/
theorem extension_selection (c : Collaborators Opt Src Ext) (fs : FileSystem)
    (conf : Config) (referrer : String) (paths : List String) :
    (selectExtensions conf =
      if (conf.child "external").empty = true then conf.child "extensions"
      else conf.child "external") ∧
    ((conf.child "external").empty = false →
      selectExtensions conf = conf.child "external") ∧
    ((selectExtensions conf).empty = false →
      (deserialize c fs conf referrer paths).1.externalConfig = selectExtensions conf ∧
      (deserialize c fs conf referrer paths).1.extensions =
        (selectExtensions conf).children.filterMap (fun i => c.createExtension i.key i)) ∧
    ((selectExtensions conf).empty = true →
      (deserialize c fs conf referrer paths).1.externalConfig = Config.emptyConfig ∧
      (deserialize c fs conf referrer paths).1.extensions = []) := by
  refine ⟨rfl, ?_, ?_, ?_⟩
  · intro h
    simp [selectExtensions, h]
  · intro h
    rw [deserialize_fst, installExtensions_eq]
    simp [h, MapNode.new]
  · intro h
    rw [deserialize_fst, installExtensions_eq]
    simp [h, MapNode.new]

/-- Witness for C16: in `bothExtensionsDoc` both sections are non-empty; the `external` one is
stored, and of its two children only `viewpoints` yields an extension. -/
theorem extension_selection_witness :
    (deserialize sampleCollab sampleFS bothExtensionsDoc "" []).1.externalConfig =
      Config.mk "external" "" ""
        [sampleSection "viewpoints" "v" "none", sampleSection "unknown" "u" "none"] ∧
    (deserialize sampleCollab sampleFS bothExtensionsDoc "" []).1.extensions
      = ["viewpoints"] :=
  (extension_selection sampleCollab sampleFS bothExtensionsDoc "" []).2.2.1 rfl

/-- C18: for every document and referrer, the search-path list after `deserialize` is the list
before followed by `getFullPath(referrer, v)` for the value `v` of each `url` child of
`options/osg_file_paths`, in document order; the list before is a prefix of the list after,
and the list is unchanged when that subtree has no `url` child. -/
theorem search_path_side_effect (c : Collaborators Opt Src Ext) (fs : FileSystem)
    (conf : Config) (referrer : String) (paths : List String) :
    (deserialize c fs conf referrer paths).2 =
      paths ++ (((conf.child "options").child "osg_file_paths").childrenOf "url").map
        (fun url => fs.getFullPath referrer url.value) ∧
    paths <+: (deserialize c fs conf referrer paths).2 ∧
    (((conf.child "options").child "osg_file_paths").childrenOf "url" = [] →
      (deserialize c fs conf referrer paths).2 = paths) := by
  refine ⟨deserialize_snd c fs conf referrer paths, ?_, ?_⟩
  · rw [deserialize_snd]
    exact List.prefix_append _ _
  · intro h
    rw [deserialize_snd, h]
    simp

/-- Witness for C18: the two `url` children of `searchPathDoc` are resolved against
`/maps/old.earth` and appended after the path already registered; the bare document leaves
the list as it was. -/
theorem search_path_side_effect_witness :
    (deserialize sampleCollab sampleFS searchPathDoc "/maps/old.earth" ["/usr/share/osg"]).2 =
      ["/usr/share/osg", "/maps/textures", "/opt/models"] ∧
    (deserialize sampleCollab sampleFS bareDoc "/maps/old.earth" ["/usr/share/osg"]).2 =
      ["/usr/share/osg"] :=
  ⟨(search_path_side_effect sampleCollab sampleFS searchPathDoc "/maps/old.earth"
      ["/usr/share/osg"]).1,
    (search_path_side_effect sampleCollab sampleFS bareDoc "/maps/old.earth"
      ["/usr/share/osg"]).2.2 rfl⟩

end DeserializerClaims

/-! ## Further claims about the serializer -/

section SerializerClaims

variable {Opt Src Ext : Type}

theorem emitDocument_eq (c : Collaborators Opt Src Ext) (node : MapNode Opt Src Ext)
    (map : Map Opt Src) (hmap : node.map = some map) :
    emitDocument c (some node) =
      Config.mk "map" "" ""
        ([Config.ofKeyValue "version" "2",
          (map.initialMapOptions.merge node.mapNodeOptions).setKey "options"] ++
          map.imageLayers.map (fun l => (layerSection c .image l).setKey "image") ++
          map.elevationLayers.map (fun l => (layerSection c .elevation l).setKey "elevation") ++
          map.modelLayers.map (fun l => (layerSection c .model l).setKey "model") ++
          extensionsPart node.externalConfig) := by
  rw [← serializeSections_eq]
  simp [emitDocument, hmap]

/-- The children named `k` of the emitted document, for a key `k` that is none of the layer
tags. -/
theorem emitDocument_childrenOf (c : Collaborators Opt Src Ext) (node : MapNode Opt Src Ext)
    (map : Map Opt Src) (hmap : node.map = some map) (k : String)
    (h1 : "image" ≠ k) (h2 : "elevation" ≠ k) (h3 : "model" ≠ k) :
    (emitDocument c (some node)).childrenOf k =
      [Config.ofKeyValue "version" "2",
        (map.initialMapOptions.merge node.mapNodeOptions).setKey "options"].filter
          (fun ch => decide (ch.key = k)) ++
      (extensionsPart node.externalConfig).filter (fun ch => decide (ch.key = k)) := by
  rw [emitDocument_eq c node map hmap]
  simp only [Config.childrenOf, Config.children_mk, List.filter_append,
    filter_setKey_ne "image" k h1, filter_setKey_ne "elevation" k h2,
    filter_setKey_ne "model" k h3, List.append_nil]

/-- C15: for every wrapper with a model, the document emitted before path rewriting has a
child keyed `extensions` if and only if the stored extension subtree is non-empty; there is
then exactly one such child, it is the stored subtree re-keyed `extensions` (same value, same
referrer, same children in the same order, whatever key it was stored under), and it is the
last child of the root. -/
theorem extension_subtree_reemitted (c : Collaborators Opt Src Ext)
    (node : MapNode Opt Src Ext) (map : Map Opt Src) (hmap : node.map = some map) :
    ((∃ ch ∈ (emitDocument c (some node)).children, ch.key = "extensions") ↔
      node.externalConfig.empty = false) ∧
    (node.externalConfig.empty = true →
      (emitDocument c (some node)).childrenOf "extensions" = []) ∧
    (node.externalConfig.empty = false →
      (emitDocument c (some node)).childrenOf "extensions" =
        [Config.mk "extensions" node.externalConfig.value node.externalConfig.referrer
          node.externalConfig.children] ∧
      (emitDocument c (some node)).children.getLast? =
        some (Config.mk "extensions" node.externalConfig.value node.externalConfig.referrer
          node.externalConfig.children)) := by
  have hco := emitDocument_childrenOf c node map hmap "extensions"
    (by decide) (by decide) (by decide)
  have hmem : (∃ ch ∈ (emitDocument c (some node)).children, ch.key = "extensions") ↔
      (emitDocument c (some node)).childrenOf "extensions" ≠ [] := by
    unfold Config.childrenOf
    rw [Ne, List.filter_eq_nil_iff]
    simp
  cases he : node.externalConfig.empty with
  | true =>
    have h0 : (emitDocument c (some node)).childrenOf "extensions" = [] := by
      rw [hco]
      simp [extensionsPart, he, Config.ofKeyValue, Config.setKey]
    refine ⟨?_, fun _ => h0, fun h => (by cases h)⟩
    rw [hmem, h0]
    simp
  | false =>
    have h1 : (emitDocument c (some node)).childrenOf "extensions" =
        [Config.mk "extensions" node.externalConfig.value node.externalConfig.referrer
          node.externalConfig.children] := by
      rw [hco]
      simp [extensionsPart, he, Config.ofKeyValue, Config.setKey]
    refine ⟨?_, fun h => (by cases h), fun _ => ⟨h1, ?_⟩⟩
    · rw [hmem, h1]
      simp
    · rw [emitDocument_eq c node map hmap]
      have hp : extensionsPart node.externalConfig =
          [Config.mk "extensions" node.externalConfig.value node.externalConfig.referrer
            node.externalConfig.children] := by
        simp [extensionsPart, he, Config.setKey]
      rw [hp, Config.children_mk, List.getLast?_concat]

/-- Witness for C15: `sampleNode` stores its subtree under the key `external`; the emitted
document ends with that subtree keyed `extensions`. -/
theorem extension_subtree_reemitted_witness :
    (emitDocument sampleCollab (some sampleNode)).childrenOf "extensions" =
      [Config.mk "extensions" "" "" [sampleSection "viewpoints" "v" "none"]] ∧
    (emitDocument sampleCollab (some sampleNode)).children.getLast? =
      some (Config.mk "extensions" "" "" [sampleSection "viewpoints" "v" "none"]) :=
  (extension_subtree_reemitted sampleCollab sampleNode _ rfl).2.2 rfl

/-- The children of a merge that are named `k`: those of `rhs` when it has any, those of the
receiver otherwise. -/
theorem Config.merge_childrenOf (base rhs : Config) (k : String) :
    (rhs.childrenOf k ≠ [] → (base.merge rhs).childrenOf k = rhs.childrenOf k) ∧
    (rhs.childrenOf k = [] → (base.merge rhs).childrenOf k = base.childrenOf k) := by
  have hm : (base.merge rhs).childrenOf k =
      (base.children.filter
        (fun x => !(rhs.children.any (fun ch => decide (x.key = ch.key))))).filter
          (fun ch => decide (ch.key = k)) ++ rhs.childrenOf k := by
    rw [Config.merge_eq]
    simp only [Config.childrenOf, Config.children_mk, List.filter_append]
  constructor
  · intro hne
    have hex : ∃ ch ∈ rhs.children, ch.key = k := by
      by_contra hcon
      apply hne
      unfold Config.childrenOf
      rw [List.filter_eq_nil_iff]
      intro a ha hk
      exact hcon ⟨a, ha, by simpa using hk⟩
    obtain ⟨ch, hch, hk⟩ := hex
    have hnil : (base.children.filter
        (fun x => !(rhs.children.any (fun ch => decide (x.key = ch.key))))).filter
          (fun ch => decide (ch.key = k)) = [] := by
      rw [List.filter_eq_nil_iff]
      intro a ha hak
      have h1 := (List.mem_filter.mp ha).2
      have h2 : (rhs.children.any fun ch => decide (a.key = ch.key)) = true := by
        rw [List.any_eq_true]
        refine ⟨ch, hch, ?_⟩
        rw [decide_eq_true_eq] at hak ⊢
        rw [hak, hk]
      rw [h2] at h1
      cases h1
    rw [hm, hnil, List.nil_append]
  · intro hnil
    rw [hm, hnil, List.append_nil, List.filter_filter]
    unfold Config.childrenOf
    apply List.filter_congr
    intro x _
    by_cases hxk : x.key = k
    · have h2 : (rhs.children.any fun ch => decide (x.key = ch.key)) = false := by
        rw [List.any_eq_false]
        intro ch hch hdec
        have hmem : ch ∈ rhs.childrenOf k := by
          unfold Config.childrenOf
          rw [List.mem_filter]
          refine ⟨hch, ?_⟩
          rw [decide_eq_true_eq] at hdec ⊢
          rw [← hdec, hxk]
        rw [hnil] at hmem
        cases hmem
      simp only [h2, Bool.not_false, Bool.and_true]
    · simp [hxk]

/-- C17: for every wrapper with a model, the document emitted before path rewriting has exactly
one `options` child; it stands right after the version marker and before every layer section
(the root's children are: version marker, options, image sections, elevation sections,
model sections, extension subtree); it is the model's base options merged with the wrapper's
node-level options, `base.merge(node)`, keyed `options`; and in that merge, for every key, the
children of that name are the node options' ones when the node options have any, and the base
options' ones otherwise. -/
theorem options_section_emitted (c : Collaborators Opt Src Ext)
    (node : MapNode Opt Src Ext) (map : Map Opt Src) (hmap : node.map = some map) :
    (emitDocument c (some node)).childrenOf "options" =
      [(map.initialMapOptions.merge node.mapNodeOptions).setKey "options"] ∧
    (emitDocument c (some node)).children =
      [Config.ofKeyValue "version" "2",
        (map.initialMapOptions.merge node.mapNodeOptions).setKey "options"] ++
      (map.imageLayers.map (fun l => (layerSection c .image l).setKey "image") ++
        map.elevationLayers.map (fun l => (layerSection c .elevation l).setKey "elevation") ++
        map.modelLayers.map (fun l => (layerSection c .model l).setKey "model") ++
        extensionsPart node.externalConfig) ∧
    ((map.initialMapOptions.merge node.mapNodeOptions).setKey "options").key = "options" ∧
    ((map.initialMapOptions.merge node.mapNodeOptions).setKey "options").value =
      (map.initialMapOptions.merge node.mapNodeOptions).value ∧
    ((map.initialMapOptions.merge node.mapNodeOptions).setKey "options").referrer =
      (map.initialMapOptions.merge node.mapNodeOptions).referrer ∧
    ((map.initialMapOptions.merge node.mapNodeOptions).setKey "options").children =
      (map.initialMapOptions.merge node.mapNodeOptions).children ∧
    (∀ k : String,
      (node.mapNodeOptions.childrenOf k ≠ [] →
        (map.initialMapOptions.merge node.mapNodeOptions).childrenOf k =
          node.mapNodeOptions.childrenOf k) ∧
      (node.mapNodeOptions.childrenOf k = [] →
        (map.initialMapOptions.merge node.mapNodeOptions).childrenOf k =
          map.initialMapOptions.childrenOf k)) := by
  refine ⟨?_, ?_, rfl, rfl, rfl, rfl, fun k => Config.merge_childrenOf _ _ k⟩
  · rw [emitDocument_childrenOf c node map hmap "options" (by decide) (by decide) (by decide),
      filter_extensionsPart _ "options" (by decide)]
    simp [Config.ofKeyValue, Config.setKey]
  · rw [emitDocument_eq c node map hmap]
    simp

/-- Witness for C17: the options section emitted for `sampleNode` holds the base key `name`
and the node-level key `lighting`. -/
theorem options_section_emitted_witness :
    (emitDocument sampleCollab (some sampleNode)).childrenOf "options" =
      [Config.mk "options" "" ""
        [Config.ofKeyValue "name" "world", Config.ofKeyValue "lighting" "false"]] :=
  (options_section_emitted sampleCollab sampleNode _ rfl).1

/-- The returned document is the emitted document, or the rewriter applied to it. -/
theorem serialize_conditional_rewrite_aux (c : Collaborators Opt Src Ext) (fs : FileSystem)
    (input : Option (MapNode Opt Src Ext)) (referrer : String) :
    serialize c fs input referrer = emitDocument c input ∨
    serialize c fs input referrer =
      RewritePaths.apply fs (RewritePaths.new fs referrer) (emitDocument c input) := by
  cases input with
  | none => exact Or.inl rfl
  | some node =>
    cases hm : node.map with
    | none => left; simp only [serialize, emitDocument, hm]
    | some map =>
      by_cases href : referrer ≠ ""
      · right; simp only [serialize, emitDocument, hm, if_pos href]
      · left; simp only [serialize, emitDocument, hm, if_neg href]

/-- The children named `k` of a rewritten tree are the rewritten children named `k`. -/
theorem childrenOf_apply (fs : FileSystem) (rp : RewritePaths) (t : Config) (k : String) :
    (RewritePaths.apply fs rp t).childrenOf k =
      (t.childrenOf k).map (RewritePaths.apply fs rp) := by
  unfold Config.childrenOf
  rw [RewritePaths.apply_children, List.filter_map]
  congr 1
  apply List.filter_congr
  intro x _
  simp [Function.comp, RewritePaths.apply_key]

/-- The rewriter leaves a fresh simple node alone: it has no referrer. -/
theorem apply_ofKeyValue (fs : FileSystem) (rp : RewritePaths) (k v : String) :
    RewritePaths.apply fs rp (Config.ofKeyValue k v) = Config.ofKeyValue k v := by
  rw [RewritePaths.apply_eq,
    RewritePaths.applyNode_eq_self_of_skip fs rp (Config.ofKeyValue k v) (Or.inl rfl)]
  rfl

/-- C20: for every input and referrer, the document returned by `serialize` has root key `map`
and exactly one `version` child, the fresh leaf with value `2`; when the wrapper is null or has
no model, the returned document is exactly the `map` root with the version marker as its only
child, whatever referrer is supplied: nothing else is emitted and nothing is rewritten. -/
theorem root_and_version_marker (c : Collaborators Opt Src Ext) (fs : FileSystem)
    (input : Option (MapNode Opt Src Ext)) (referrer : String) :
    (serialize c fs input referrer).key = "map" ∧
    (serialize c fs input referrer).childrenOf "version" = [Config.ofKeyValue "version" "2"] ∧
    ((serialize c fs input referrer).childrenOf "version").map Config.value = ["2"] ∧
    ((input = none ∨ ∃ node, input = some node ∧ node.map = none) →
      serialize c fs input referrer =
        Config.mk "map" "" "" [Config.ofKeyValue "version" "2"]) := by
  have hnull : (input = none ∨ ∃ node, input = some node ∧ node.map = none) →
      serialize c fs input referrer =
        Config.mk "map" "" "" [Config.ofKeyValue "version" "2"] := by
    intro h
    rcases h with h | ⟨node, h, hm⟩
    · rw [h]; rfl
    · rw [h]
      simp only [serialize, hm]
      rfl
  have hmain : (serialize c fs input referrer).key = "map" ∧
      (serialize c fs input referrer).childrenOf "version"
        = [Config.ofKeyValue "version" "2"] := by
    cases input with
    | none => rw [hnull (Or.inl rfl)]; exact ⟨rfl, rfl⟩
    | some node =>
      cases hm : node.map with
      | none => rw [hnull (Or.inr ⟨node, rfl, hm⟩)]; exact ⟨rfl, rfl⟩
      | some map =>
        have hdoc : emitDocument c (some node) = serializeSections c node map serializeHeader := by
          simp [emitDocument, hm]
        have hver : (emitDocument c (some node)).childrenOf "version" =
            [Config.ofKeyValue "version" "2"] := by
          rw [emitDocument_childrenOf c node map hm "version" (by decide) (by decide)
            (by decide), filter_extensionsPart _ "version" (by decide)]
          simp [Config.ofKeyValue, Config.setKey]
        have hkey : (emitDocument c (some node)).key = "map" := by
          rw [emitDocument_eq c node map hm]; rfl
        have hser := (serialize_conditional_rewrite_aux c fs (some node) referrer)
        rcases hser with hs | hs
        · rw [hs]; exact ⟨hkey, hver⟩
        · rw [hs, RewritePaths.apply_key, childrenOf_apply, hver]
          exact ⟨hkey, by simp [apply_ofKeyValue]⟩
  exact ⟨hmain.1, hmain.2, by rw [hmain.2]; rfl, hnull⟩

/-- Witness for C20: a null wrapper and a wrapper without model, serialized for
`/share/new.earth`, give the bare root with its version marker. -/
theorem root_and_version_marker_witness :
    serialize sampleCollab sampleFS (none : Option (MapNode Config String String))
        "/share/new.earth" =
      Config.mk "map" "" "" [Config.ofKeyValue "version" "2"] ∧
    serialize sampleCollab sampleFS (some { sampleNode with map := none })
        "/share/new.earth" =
      Config.mk "map" "" "" [Config.ofKeyValue "version" "2"] :=
  ⟨(root_and_version_marker sampleCollab sampleFS none "/share/new.earth").2.2.2 (Or.inl rfl),
    (root_and_version_marker sampleCollab sampleFS (some { sampleNode with map := none })
      "/share/new.earth").2.2.2 (Or.inr ⟨_, rfl, rfl⟩)⟩

end SerializerClaims

end EarthFile
